import Mathlib

/-!
# Worker pool (`work/pool.go`, `work/job.go`)

A shallow embedding of the Go worker pool.  Job closures are state-passing functions over a
world `σ`; `any` values are `Option α` (`none` is `nil`); errors are `Option String`.
Goroutines are explicit program counters and the scheduler is the choice of the next `Action`,
so a behaviour of the program is a list of actions accepted by `run`.
-/

namespace Work

/-! ## `job.go` -/

/-- Go `error`: `none` is the nil error, `some msg` is `errors.New(msg)`. -/
abbrev GoError := Option String

/-- Interface `Executor` of `pool.go`.  The only implementation in the repository answers
`ShouldReturnResult` from an immutable field, so it is a plain flag here. -/
structure Executor (σ α : Type) where
  Execute : σ → (Option α × GoError) × σ
  OnError : GoError → σ → σ
  ShouldReturnResult : Bool

/-- Struct `Result` of `pool.go`. -/
structure Result (σ α : Type) where
  Value : Option α
  Error : GoError
  Executor : Executor σ α

/-- Struct `job` of `job.go`. -/
structure job (σ α : Type) where
  execute : σ → (Option α × GoError) × σ
  errorHandler : GoError → σ → σ
  shouldReturnResult : Bool

variable {σ α : Type}

/-- `NewJob`: the closure `func() (any, error) { return nil, execute() }`. -/
def NewJob (execute : σ → GoError × σ) (errorHandler : GoError → σ → σ) : job σ α :=
  { execute := fun w => ((none, (execute w).1), (execute w).2)
    errorHandler := errorHandler
    shouldReturnResult := false }

/-- `NewJobWithResult`. -/
def NewJobWithResult (execute : σ → (Option α × GoError) × σ)
    (errorHandler : GoError → σ → σ) : job σ α :=
  { execute := execute
    errorHandler := errorHandler
    shouldReturnResult := true }

/-- Method `(*job).Execute`. -/
def job.Execute (t : job σ α) : σ → (Option α × GoError) × σ :=
  t.execute

/-- Method `(*job).OnError`. -/
def job.OnError (t : job σ α) (err : GoError) : σ → σ :=
  t.errorHandler err

/-- Method `(*job).ShouldReturnResult`. -/
def job.ShouldReturnResult (t : job σ α) : Bool :=
  t.shouldReturnResult

/-- A `*job` used as an `Executor`. -/
def job.toExecutor (t : job σ α) : Executor σ α :=
  { Execute := t.Execute
    OnError := t.OnError
    ShouldReturnResult := t.ShouldReturnResult }

/-! ## Channels -/

/-- A Go channel: capacity, buffered items (oldest first) and the closed mark. -/
structure Chan (τ : Type) where
  cap : Nat
  buf : List τ
  closed : Bool

/-- Run-time panics of the Go runtime and of `sync` that the pool's statements can raise. -/
inductive Panic where
  /-- Runtime: send on closed channel. -/
  | sendOnClosedChannel
  /-- Runtime: close of closed channel. -/
  | closeOfClosedChannel
  /-- Package sync: negative WaitGroup counter. -/
  | negativeWaitGroupCounter
  /-- Runtime: makechan: size out of range. -/
  | makechanSizeOutOfRange
  deriving DecidableEq

/-- The constants of the Go runtime that `make(chan T, n)` checks the requested size against.
They belong to the platform, not to the repository, so they are parameters: the width of
`uintptr`, `maxAlloc`, the size of the channel header `hchan`, and the sizes of the two
element types `Executor` and `Result`. -/
structure Runtime where
  uintptrBits : Nat
  maxAlloc : Nat
  hchanSize : Nat
  executorSize : Nat
  resultSize : Nat

/-- The runtime on linux/amd64: `uintptr` has 64 bits, `maxAlloc` is `1 << 48`, an interface
value takes two words, so an `Executor` takes 16 bytes and a `Result` (three interface
values) 48. -/
def Runtime.amd64 : Runtime :=
  { uintptrBits := 64
    maxAlloc := 2 ^ 48
    hchanSize := 96
    executorSize := 16
    resultSize := 48 }

/-- The size check of `makechan`:
`mem, overflow := math.MulUintptr(elem.Size_, uintptr(size))` followed by
`overflow || mem > maxAlloc-hchanSize || size < 0`. -/
def Runtime.sizeOutOfRange (rt : Runtime) (elemSize : Nat) (size : Int) : Bool :=
  decide (2 ^ rt.uintptrBits ≤ elemSize * (size % ((2 ^ rt.uintptrBits : Nat) : Int)).toNat) ||
    (decide (rt.maxAlloc - rt.hchanSize <
        (elemSize * (size % ((2 ^ rt.uintptrBits : Nat) : Int)).toNat) % 2 ^ rt.uintptrBits) ||
      decide (size < 0))

/-- Go `make(chan τ, n)` for elements of `elemSize` bytes: a panic when the size check of
`makechan` fails, otherwise an empty open channel of capacity `n`.  Running out of memory is
not modelled, here as for every other allocation. -/
def makeChan {τ : Type} (rt : Runtime) (elemSize : Nat) (n : Int) : Except Panic (Chan τ) :=
  if rt.sizeOutOfRange elemSize n then Except.error Panic.makechanSizeOutOfRange
  else Except.ok { cap := n.toNat, buf := [], closed := false }

/-! ## `pool.go`: the pool and its constructor -/

/-- Struct `Pool`.  `start` and `stop` are the two `sync.Once` (has `Do` been entered),
`jobWg` the `sync.WaitGroup` counter, `done` whether `chan struct{}` is closed. -/
structure Pool (σ α : Type) where
  numWorkers : Int
  jobs : Chan (Executor σ α)
  results : Chan (Result σ α)
  start : Bool
  stop : Bool
  jobWg : Int
  done : Bool

/-- `NewPool`: a panic when one of the two `make(chan ..., jobChannelSize)` panics, otherwise
the returned pair `(*Pool, error)`, a nil pointer being `none`.  The two guards come first;
the queues are made in the order of the composite literal; `make(chan struct{})` has size 0,
which the size check accepts. -/
def NewPool (rt : Runtime) (numWorkers jobChannelSize : Int) :
    Except Panic (Option (Pool σ α) × GoError) :=
  if numWorkers ≤ 0 then
    Except.ok (none, some "numWorkers must be greater than zero")
  else if jobChannelSize < 0 then
    Except.ok (none, some "jobChannelSize cannot be negative")
  else
    match makeChan rt rt.executorSize jobChannelSize with
    | Except.error e => Except.error e
    | Except.ok jobs =>
        match makeChan rt rt.resultSize jobChannelSize with
        | Except.error e => Except.error e
        | Except.ok results =>
            Except.ok (some { numWorkers := numWorkers
                              jobs := jobs
                              results := results
                              start := false
                              stop := false
                              jobWg := 0
                              done := false }, none)

/-! ## Goroutines -/

/-- Where a `worker` goroutine stands in its loop. -/
inductive WorkerPc (σ α : Type) where
  /-- At the `select` at the top of the loop. -/
  | select
  /-- A job was received; `job.Execute()` is running. -/
  | running (t : Executor σ α)
  /-- `Execute` returned a non-nil error; about to call `job.OnError(err)`. -/
  | onError (t : Executor σ α) (value : Option α) (err : GoError)
  /-- At `if job.ShouldReturnResult()`. -/
  | emit (t : Executor σ α) (value : Option α) (err : GoError)
  /-- About to call `p.jobWg.Done()`. -/
  | wgDone (t : Executor σ α)
  /-- The goroutine returned. -/
  | exited

/-- Where a call of `AddJob` that took the `default` branch stands. -/
inductive AddPc where
  /-- About to call `p.jobWg.Add(1)`. -/
  | wgAdd
  /-- At `p.jobs <- t`. -/
  | send
  /-- The call returned. -/
  | returned
  deriving DecidableEq

/-- A call of `AddJob` past its `select`. -/
structure Adder (σ α : Type) where
  t : Executor σ α
  pc : AddPc

/-- Where the goroutine running the body of `p.stop.Do` stands. -/
inductive StopPc where
  /-- `Stop` has not been called. -/
  | idle
  /-- In `p.WaitJobs()`. -/
  | waitJobs
  /-- About to `close(p.jobs)`. -/
  | closeJobs
  /-- About to `close(p.results)`. -/
  | closeResults
  /-- About to `close(p.done)`. -/
  | closeDone
  /-- The body returned. -/
  | finished
  deriving DecidableEq

/-- What the workers did, newest first. -/
inductive Event (σ α : Type) where
  /-- Worker `w` called `t.Execute()` in world `pre`. -/
  | executed (w : Nat) (t : Executor σ α) (pre : σ)
  /-- Worker `w` called `t.OnError(err)`. -/
  | onError (w : Nat) (t : Executor σ α) (err : GoError)
  /-- Worker `w` completed `p.results <- r`. -/
  | sent (w : Nat) (r : Result σ α)
  /-- Worker `w` called `p.jobWg.Done()` for job `t`. -/
  | wgDone (w : Nat) (t : Executor σ α)

/-- The running program: the pool, the goroutines around it and its observers. -/
structure System (σ α : Type) where
  pool : Pool σ α
  /-- The context passed to `Start` is cancelled. -/
  ctxDone : Bool
  workers : List (WorkerPc σ α)
  adders : List (Adder σ α)
  stopper : StopPc
  world : σ
  /-- Items read from `Result()`, oldest first. -/
  consumed : List (Result σ α)
  /-- The reader of `Result()` saw the channel closed. -/
  streamEnded : Bool
  trace : List (Event σ α)
  /-- Jobs whose `AddJob` took the `default` branch, newest first. -/
  accepted : List (Executor σ α)
  panicked : Option Panic

/-- The program right after `NewPool` returned `p`. -/
def System.init (p : Pool σ α) (world : σ) : System σ α :=
  { pool := p
    ctxDone := false
    workers := []
    adders := []
    stopper := StopPc.idle
    world := world
    consumed := []
    streamEnded := false
    trace := []
    accepted := []
    panicked := none }

/-! ## Channel operations -/

/-- Outcome of a send that finds no receiver waiting. -/
inductive SendOutcome (τ : Type) where
  | sent (c : Chan τ)
  | blocked
  | panic

/-- Go `c <- x` with no receiver waiting: panics when closed, enqueues when the buffer has
room, blocks otherwise. -/
def Chan.send {τ : Type} (c : Chan τ) (x : τ) : SendOutcome τ :=
  if c.closed then SendOutcome.panic
  else if c.buf.length < c.cap then SendOutcome.sent { c with buf := c.buf ++ [x] }
  else SendOutcome.blocked

/-- Outcome of a receive that finds no sender waiting. -/
inductive RecvOutcome (τ : Type) where
  | value (x : τ) (c : Chan τ)
  | closed
  | blocked

/-- Go `x, ok := <-c` with no sender waiting: takes the oldest buffered item, reports `!ok`
on an empty closed channel, blocks on an empty open one. -/
def Chan.recv {τ : Type} (c : Chan τ) : RecvOutcome τ :=
  match c.buf with
  | x :: rest => RecvOutcome.value x { c with buf := rest }
  | [] => if c.closed then RecvOutcome.closed else RecvOutcome.blocked

/-- A sender and a receiver can meet on the channel: it is open and nothing is buffered. -/
def Chan.rendezvous {τ : Type} (c : Chan τ) : Bool :=
  !c.closed && c.buf.isEmpty

/-! ## Statements of `pool.go` as atomic steps -/

/-- The program crashes with a panic. -/
def System.raise (s : System σ α) (p : Panic) : System σ α :=
  { s with panicked := some p }

/-- `Start`: `p.start.Do` runs the spawning loop on the first call only. -/
def Start (s : System σ α) : System σ α :=
  if s.pool.start then s
  else
    { s with
      pool := { s.pool with start := true }
      workers := s.workers ++ List.replicate s.pool.numWorkers.toNat WorkerPc.select }

/-- `Stop`: `p.stop.Do` starts its body on the first call only; a later call has no effect
of its own. -/
def Stop (s : System σ α) : System σ α :=
  if s.pool.stop then s
  else { s with pool := { s.pool with stop := true }, stopper := StopPc.waitJobs }

/-- `WaitJobs` returns exactly when the `WaitGroup` counter is zero. -/
def WaitJobsReturns (s : System σ α) : Bool :=
  decide (s.pool.jobWg = 0)

/-- The next statement of the body of `p.stop.Do`. -/
def stopStep (s : System σ α) : Option (System σ α) :=
  match s.stopper with
  | StopPc.waitJobs =>
      if WaitJobsReturns s then some { s with stopper := StopPc.closeJobs } else none
  | StopPc.closeJobs =>
      if s.pool.jobs.closed then some (s.raise Panic.closeOfClosedChannel)
      else some { s with
                  pool := { s.pool with jobs := { s.pool.jobs with closed := true } }
                  stopper := StopPc.closeResults }
  | StopPc.closeResults =>
      if s.pool.results.closed then some (s.raise Panic.closeOfClosedChannel)
      else some { s with
                  pool := { s.pool with results := { s.pool.results with closed := true } }
                  stopper := StopPc.closeDone }
  | StopPc.closeDone =>
      if s.pool.done then some (s.raise Panic.closeOfClosedChannel)
      else some { s with pool := { s.pool with done := true }, stopper := StopPc.finished }
  | _ => none

/-- `AddJob`, the `select`: with `p.done` closed the first case is ready and the call
returns; otherwise the `default` branch is entered. -/
def AddJob (s : System σ α) (t : Executor σ α) : System σ α :=
  if s.pool.done then s
  else { s with adders := s.adders ++ [{ t := t, pc := AddPc.wgAdd }], accepted := t :: s.accepted }

/-- The next statement of the `default` branch of the `i`-th accepted `AddJob`. -/
def addStep (s : System σ α) (i : Nat) : Option (System σ α) :=
  match s.adders[i]? with
  | some { t := t, pc := AddPc.wgAdd } =>
      some { s with
             pool := { s.pool with jobWg := s.pool.jobWg + 1 }
             adders := s.adders.set i { t := t, pc := AddPc.send } }
  | some { t := t, pc := AddPc.send } =>
      match s.pool.jobs.send t with
      | SendOutcome.sent c =>
          some { s with
                 pool := { s.pool with jobs := c }
                 adders := s.adders.set i { t := t, pc := AddPc.returned } }
      | SendOutcome.blocked => none
      | SendOutcome.panic => some (s.raise Panic.sendOnClosedChannel)
  | _ => none

/-- The send `p.jobs <- t` of the `i`-th `AddJob` meets worker `w` waiting in its `select`. -/
def addHandoff (s : System σ α) (i w : Nat) : Option (System σ α) :=
  match s.adders[i]?, s.workers[w]? with
  | some { t := t, pc := AddPc.send }, some WorkerPc.select =>
      if s.pool.jobs.rendezvous then
        some { s with
               adders := s.adders.set i { t := t, pc := AddPc.returned }
               workers := s.workers.set w (WorkerPc.running t) }
      else none
  | _, _ => none

/-- Worker `w` takes `case <-ctx.Done()`. -/
def workerCtx (s : System σ α) (w : Nat) : Option (System σ α) :=
  match s.workers[w]? with
  | some WorkerPc.select =>
      if s.ctxDone then some { s with workers := s.workers.set w WorkerPc.exited } else none
  | _ => none

/-- Worker `w` takes `case <-p.Done()`. -/
def workerPoolDone (s : System σ α) (w : Nat) : Option (System σ α) :=
  match s.workers[w]? with
  | some WorkerPc.select =>
      if s.pool.done then some { s with workers := s.workers.set w WorkerPc.exited } else none
  | _ => none

/-- Worker `w` takes `case job, ok := <-p.jobs` from the buffer or from the closed channel. -/
def workerRecv (s : System σ α) (w : Nat) : Option (System σ α) :=
  match s.workers[w]? with
  | some WorkerPc.select =>
      match s.pool.jobs.recv with
      | RecvOutcome.value t c =>
          some { s with
                 pool := { s.pool with jobs := c }
                 workers := s.workers.set w (WorkerPc.running t) }
      | RecvOutcome.closed => some { s with workers := s.workers.set w WorkerPc.exited }
      | RecvOutcome.blocked => none
  | _ => none

/-- The next statement of worker `w` after it received a job. -/
def workerStep (s : System σ α) (w : Nat) : Option (System σ α) :=
  match s.workers[w]? with
  | some (WorkerPc.running t) =>
      some { s with
             world := (t.Execute s.world).2
             trace := Event.executed w t s.world :: s.trace
             workers := s.workers.set w
               (if (t.Execute s.world).1.2.isSome
                then WorkerPc.onError t (t.Execute s.world).1.1 (t.Execute s.world).1.2
                else WorkerPc.emit t (t.Execute s.world).1.1 (t.Execute s.world).1.2) }
  | some (WorkerPc.onError t value err) =>
      some { s with
             world := t.OnError err s.world
             trace := Event.onError w t err :: s.trace
             workers := s.workers.set w (WorkerPc.emit t value err) }
  | some (WorkerPc.emit t value err) =>
      if t.ShouldReturnResult then
        match s.pool.results.send { Value := value, Error := err, Executor := t } with
        | SendOutcome.sent c =>
            some { s with
                   pool := { s.pool with results := c }
                   trace := Event.sent w { Value := value, Error := err, Executor := t } :: s.trace
                   workers := s.workers.set w (WorkerPc.wgDone t) }
        | SendOutcome.blocked => none
        | SendOutcome.panic => some (s.raise Panic.sendOnClosedChannel)
      else some { s with workers := s.workers.set w (WorkerPc.wgDone t) }
  | some (WorkerPc.wgDone t) =>
      if s.pool.jobWg - 1 < 0 then some (s.raise Panic.negativeWaitGroupCounter)
      else
        some { s with
               pool := { s.pool with jobWg := s.pool.jobWg - 1 }
               trace := Event.wgDone w t :: s.trace
               workers := s.workers.set w WorkerPc.select }
  | _ => none

/-- The send `p.results <- Result{...}` of worker `w` meets the reader of `Result()`. -/
def workerHandoff (s : System σ α) (w : Nat) : Option (System σ α) :=
  match s.workers[w]? with
  | some (WorkerPc.emit t value err) =>
      if t.ShouldReturnResult && s.pool.results.rendezvous then
        some { s with
               consumed := s.consumed ++ [{ Value := value, Error := err, Executor := t }]
               trace := Event.sent w { Value := value, Error := err, Executor := t } :: s.trace
               workers := s.workers.set w (WorkerPc.wgDone t) }
      else none
  | _ => none

/-- The reader of `Result()` receives once. -/
def consume (s : System σ α) : Option (System σ α) :=
  match s.pool.results.recv with
  | RecvOutcome.value r c =>
      some { s with pool := { s.pool with results := c }, consumed := s.consumed ++ [r] }
  | RecvOutcome.closed => some { s with streamEnded := true }
  | RecvOutcome.blocked => none

/-! ## Behaviours -/

/-- What the scheduler and the callers can do next. -/
inductive Action (σ α : Type) where
  /-- A call of `Start(ctx)`. -/
  | start
  /-- The context given to `Start` is cancelled. -/
  | cancel
  /-- A call of `AddJob(t)` evaluates its `select`. -/
  | addJob (t : Executor σ α)
  | addStep (i : Nat)
  | addHandoff (i w : Nat)
  /-- A call of `Stop()`. -/
  | stop
  | stopStep
  | workerCtx (w : Nat)
  | workerPoolDone (w : Nat)
  | workerRecv (w : Nat)
  | workerStep (w : Nat)
  | workerHandoff (w : Nat)
  | consume

/-- One atomic step; `none` when the action cannot proceed (it is blocked or names no
goroutine at the right place) or the program has crashed. -/
def step (s : System σ α) (a : Action σ α) : Option (System σ α) :=
  if s.panicked.isSome then none
  else
    match a with
    | Action.start => some (Start s)
    | Action.cancel => some { s with ctxDone := true }
    | Action.addJob t => some (AddJob s t)
    | Action.addStep i => addStep s i
    | Action.addHandoff i w => addHandoff s i w
    | Action.stop => some (Stop s)
    | Action.stopStep => stopStep s
    | Action.workerCtx w => workerCtx s w
    | Action.workerPoolDone w => workerPoolDone s w
    | Action.workerRecv w => workerRecv s w
    | Action.workerStep w => workerStep s w
    | Action.workerHandoff w => workerHandoff s w
    | Action.consume => consume s

/-- Runs a schedule. -/
def run (s : System σ α) : List (Action σ α) → Option (System σ α)
  | [] => some s
  | a :: rest => (step s a).bind (fun s' => run s' rest)

/-- States some schedule leads to from `s₀`. -/
def Reachable (s₀ s : System σ α) : Prop :=
  ∃ acts : List (Action σ α), run s₀ acts = some s

/-! ## Measures of a state -/

/-- Weighted size of a list: the sum of the weights of its items. -/
def wsum {β : Type} (φ : β → Nat) (l : List β) : Nat :=
  (l.map φ).sum

/-- The job a worker took from the queue and has not yet reported with `jobWg.Done()`. -/
def WorkerPc.held : WorkerPc σ α → List (Executor σ α)
  | WorkerPc.running t => [t]
  | WorkerPc.onError t _ _ => [t]
  | WorkerPc.emit t _ _ => [t]
  | WorkerPc.wgDone t => [t]
  | _ => []

/-- The job a worker received whose `Execute` has not returned yet. -/
def WorkerPc.unexecuted : WorkerPc σ α → List (Executor σ α)
  | WorkerPc.running t => [t]
  | _ => []

/-- The `Result` a worker has computed and still has to send. -/
def WorkerPc.unsent : WorkerPc σ α → List (Result σ α)
  | WorkerPc.onError t value err =>
      if t.ShouldReturnResult then [{ Value := value, Error := err, Executor := t }] else []
  | WorkerPc.emit t value err =>
      if t.ShouldReturnResult then [{ Value := value, Error := err, Executor := t }] else []
  | _ => []

/-- The job of an `AddJob` that has called `jobWg.Add(1)` and not completed its send. -/
def Adder.counted (a : Adder σ α) : List (Executor σ α) :=
  match a.pc with
  | AddPc.send => [a.t]
  | _ => []

/-- The job of an `AddJob` that has not returned. -/
def Adder.inFlight (a : Adder σ α) : List (Executor σ α) :=
  match a.pc with
  | AddPc.returned => []
  | _ => [a.t]

/-- The job an `executed` event is about. -/
def Event.job : Event σ α → List (Executor σ α)
  | Event.executed _ t _ => [t]
  | _ => []

/-- The `Result` record a worker builds from what `Execute` returned, for a job that wants
one. -/
def Event.result : Event σ α → List (Result σ α)
  | Event.executed _ t pre =>
      if t.ShouldReturnResult then
        [{ Value := (t.Execute pre).1.1, Error := (t.Execute pre).1.2, Executor := t }]
      else []
  | _ => []

/-- The worker an event belongs to. -/
def Event.worker : Event σ α → Nat
  | Event.executed w _ _ => w
  | Event.onError w _ _ => w
  | Event.sent w _ => w
  | Event.wgDone w _ => w

/-- Jobs held by workers. -/
def heldJobs (s : System σ α) : List (Executor σ α) :=
  s.workers.flatMap WorkerPc.held

/-- Jobs received whose `Execute` has not returned. -/
def unexecutedJobs (s : System σ α) : List (Executor σ α) :=
  s.workers.flatMap WorkerPc.unexecuted

/-- Results computed and not yet sent. -/
def unsentResults (s : System σ α) : List (Result σ α) :=
  s.workers.flatMap WorkerPc.unsent

/-- Jobs counted in `jobWg` and not yet on the queue. -/
def countedJobs (s : System σ α) : List (Executor σ α) :=
  s.adders.flatMap Adder.counted

/-- Jobs of the `AddJob` calls in flight. -/
def inFlightJobs (s : System σ α) : List (Executor σ α) :=
  s.adders.flatMap Adder.inFlight

/-- Jobs whose `Execute` has been run, one entry per run, newest first. -/
def executedJobs (s : System σ α) : List (Executor σ α) :=
  s.trace.flatMap Event.job

/-- One `Result` record per run of `Execute` on a job that wants a result. -/
def expectedResults (s : System σ α) : List (Result σ α) :=
  s.trace.flatMap Event.result

/-- No call of `AddJob` is in flight. -/
def NoAddJobInFlight (s : System σ α) : Prop :=
  inFlightJobs s = []

/-- Number of jobs whose `Execute` has begun and whose `jobWg.Done()` has not happened. -/
def executingCount (s : System σ α) : Nat :=
  (heldJobs s).length

/-! ## The steps as a relation

The same steps as `step`, with the goroutine that moves singled out of its list. -/

/-- Relation `Step s a s'`: the action `a` leads in one atomic step from `s` to `s'`. -/
inductive Step : System σ α → Action σ α → System σ α → Prop where
  | startAgain (s : System σ α) (h : s.pool.start = true) : Step s Action.start s
  | addJobDropped (s : System σ α) (t : Executor σ α) (h : s.pool.done = true) :
      Step s (Action.addJob t) s
  | stopAgain (s : System σ α) (h : s.pool.stop = true) : Step s Action.stop s
  | start (s : System σ α) (h : s.pool.start = false) :
      Step s Action.start { s with
               pool := { s.pool with start := true }
               workers := s.workers ++ List.replicate s.pool.numWorkers.toNat WorkerPc.select }
  | cancel (s : System σ α) : Step s Action.cancel { s with ctxDone := true }
  | addJob (s : System σ α) (t : Executor σ α) (h : s.pool.done = false) :
      Step s (Action.addJob t) { s with
               adders := s.adders ++ [{ t := t, pc := AddPc.wgAdd }]
               accepted := t :: s.accepted }
  | stop (s : System σ α) (h : s.pool.stop = false) :
      Step s Action.stop { s with pool := { s.pool with stop := true }, stopper := StopPc.waitJobs }
  | stopWait (s : System σ α) (hpc : s.stopper = StopPc.waitJobs) (hwg : s.pool.jobWg = 0) :
      Step s Action.stopStep { s with stopper := StopPc.closeJobs }
  | closeJobs (s : System σ α) (hpc : s.stopper = StopPc.closeJobs)
      (hopen : s.pool.jobs.closed = false) :
      Step s Action.stopStep { s with
               pool := { s.pool with jobs := { s.pool.jobs with closed := true } }
               stopper := StopPc.closeResults }
  | closeResults (s : System σ α) (hpc : s.stopper = StopPc.closeResults)
      (hopen : s.pool.results.closed = false) :
      Step s Action.stopStep { s with
               pool := { s.pool with results := { s.pool.results with closed := true } }
               stopper := StopPc.closeDone }
  | closeDone (s : System σ α) (hpc : s.stopper = StopPc.closeDone)
      (hopen : s.pool.done = false) :
      Step s Action.stopStep
        { s with pool := { s.pool with done := true }, stopper := StopPc.finished }
  | closePanic (s : System σ α)
      (hwhy : (s.stopper = StopPc.closeJobs ∧ s.pool.jobs.closed = true) ∨
        (s.stopper = StopPc.closeResults ∧ s.pool.results.closed = true) ∨
        (s.stopper = StopPc.closeDone ∧ s.pool.done = true)) :
      Step s Action.stopStep (s.raise Panic.closeOfClosedChannel)
  | consumeValue (s : System σ α) (r : Result σ α) (rest : List (Result σ α))
      (hbuf : s.pool.results.buf = r :: rest) :
      Step s Action.consume { s with
               pool := { s.pool with results := { s.pool.results with buf := rest } }
               consumed := s.consumed ++ [r] }
  | consumeEnd (s : System σ α) (hclosed : s.pool.results.closed = true)
      (hempty : s.pool.results.buf = []) :
      Step s Action.consume { s with streamEnded := true }
  | addWg (s : System σ α) (l₁ l₂ : List (Adder σ α)) (t : Executor σ α)
      (ha : s.adders = l₁ ++ { t := t, pc := AddPc.wgAdd } :: l₂) :
      Step s (Action.addStep l₁.length) { s with
               pool := { s.pool with jobWg := s.pool.jobWg + 1 }
               adders := l₁ ++ { t := t, pc := AddPc.send } :: l₂ }
  | addSend (s : System σ α) (l₁ l₂ : List (Adder σ α)) (t : Executor σ α)
      (ha : s.adders = l₁ ++ { t := t, pc := AddPc.send } :: l₂)
      (hopen : s.pool.jobs.closed = false) (hroom : s.pool.jobs.buf.length < s.pool.jobs.cap) :
      Step s (Action.addStep l₁.length) { s with
               pool := { s.pool with jobs := { s.pool.jobs with buf := s.pool.jobs.buf ++ [t] } }
               adders := l₁ ++ { t := t, pc := AddPc.returned } :: l₂ }
  | addSendPanic (s : System σ α) (l₁ l₂ : List (Adder σ α)) (t : Executor σ α)
      (ha : s.adders = l₁ ++ { t := t, pc := AddPc.send } :: l₂)
      (hclosed : s.pool.jobs.closed = true) :
      Step s (Action.addStep l₁.length) (s.raise Panic.sendOnClosedChannel)
  | addHandoff (s : System σ α) (l₁ l₂ : List (Adder σ α)) (k₁ k₂ : List (WorkerPc σ α))
      (t : Executor σ α)
      (ha : s.adders = l₁ ++ { t := t, pc := AddPc.send } :: l₂)
      (hw : s.workers = k₁ ++ WorkerPc.select :: k₂)
      (hopen : s.pool.jobs.closed = false) (hempty : s.pool.jobs.buf = []) :
      Step s (Action.addHandoff l₁.length k₁.length) { s with
               adders := l₁ ++ { t := t, pc := AddPc.returned } :: l₂
               workers := k₁ ++ WorkerPc.running t :: k₂ }
  | workerCtx (s : System σ α) (k₁ k₂ : List (WorkerPc σ α))
      (hw : s.workers = k₁ ++ WorkerPc.select :: k₂)
      (hwhy : s.ctxDone = true) :
      Step s (Action.workerCtx k₁.length) { s with workers := k₁ ++ WorkerPc.exited :: k₂ }
  | workerPoolDone (s : System σ α) (k₁ k₂ : List (WorkerPc σ α))
      (hw : s.workers = k₁ ++ WorkerPc.select :: k₂)
      (hwhy : s.pool.done = true) :
      Step s (Action.workerPoolDone k₁.length)
        { s with workers := k₁ ++ WorkerPc.exited :: k₂ }
  | workerClosed (s : System σ α) (k₁ k₂ : List (WorkerPc σ α))
      (hw : s.workers = k₁ ++ WorkerPc.select :: k₂)
      (hclosed : s.pool.jobs.closed = true) (hempty : s.pool.jobs.buf = []) :
      Step s (Action.workerRecv k₁.length) { s with workers := k₁ ++ WorkerPc.exited :: k₂ }
  | workerRecv (s : System σ α) (k₁ k₂ : List (WorkerPc σ α)) (t : Executor σ α)
      (rest : List (Executor σ α))
      (hw : s.workers = k₁ ++ WorkerPc.select :: k₂) (hbuf : s.pool.jobs.buf = t :: rest) :
      Step s (Action.workerRecv k₁.length) { s with
               pool := { s.pool with jobs := { s.pool.jobs with buf := rest } }
               workers := k₁ ++ WorkerPc.running t :: k₂ }
  | execute (s : System σ α) (k₁ k₂ : List (WorkerPc σ α)) (t : Executor σ α)
      (hw : s.workers = k₁ ++ WorkerPc.running t :: k₂) :
      Step s (Action.workerStep k₁.length) { s with
               world := (t.Execute s.world).2
               trace := Event.executed k₁.length t s.world :: s.trace
               workers := k₁ ++
                 (if (t.Execute s.world).1.2.isSome
                  then WorkerPc.onError t (t.Execute s.world).1.1 (t.Execute s.world).1.2
                  else WorkerPc.emit t (t.Execute s.world).1.1 (t.Execute s.world).1.2) :: k₂ }
  | onError (s : System σ α) (k₁ k₂ : List (WorkerPc σ α)) (t : Executor σ α)
      (value : Option α) (err : GoError)
      (hw : s.workers = k₁ ++ WorkerPc.onError t value err :: k₂) :
      Step s (Action.workerStep k₁.length) { s with
               world := t.OnError err s.world
               trace := Event.onError k₁.length t err :: s.trace
               workers := k₁ ++ WorkerPc.emit t value err :: k₂ }
  | emitSend (s : System σ α) (k₁ k₂ : List (WorkerPc σ α)) (t : Executor σ α)
      (value : Option α) (err : GoError)
      (hw : s.workers = k₁ ++ WorkerPc.emit t value err :: k₂)
      (hflag : t.ShouldReturnResult = true)
      (hopen : s.pool.results.closed = false)
      (hroom : s.pool.results.buf.length < s.pool.results.cap) :
      Step s (Action.workerStep k₁.length) { s with
               pool := { s.pool with
                         results := { s.pool.results with
                                      buf := s.pool.results.buf ++
                                        [{ Value := value, Error := err, Executor := t }] } }
               trace := Event.sent k₁.length { Value := value, Error := err, Executor := t }
                 :: s.trace
               workers := k₁ ++ WorkerPc.wgDone t :: k₂ }
  | emitPanic (s : System σ α) (k₁ k₂ : List (WorkerPc σ α)) (t : Executor σ α)
      (value : Option α) (err : GoError)
      (hw : s.workers = k₁ ++ WorkerPc.emit t value err :: k₂)
      (hflag : t.ShouldReturnResult = true)
      (hclosed : s.pool.results.closed = true) :
      Step s (Action.workerStep k₁.length) (s.raise Panic.sendOnClosedChannel)
  | emitSkip (s : System σ α) (k₁ k₂ : List (WorkerPc σ α)) (t : Executor σ α)
      (value : Option α) (err : GoError)
      (hw : s.workers = k₁ ++ WorkerPc.emit t value err :: k₂)
      (hflag : t.ShouldReturnResult = false) :
      Step s (Action.workerStep k₁.length) { s with workers := k₁ ++ WorkerPc.wgDone t :: k₂ }
  | emitHandoff (s : System σ α) (k₁ k₂ : List (WorkerPc σ α)) (t : Executor σ α)
      (value : Option α) (err : GoError)
      (hw : s.workers = k₁ ++ WorkerPc.emit t value err :: k₂)
      (hflag : t.ShouldReturnResult = true)
      (hopen : s.pool.results.closed = false) (hempty : s.pool.results.buf = []) :
      Step s (Action.workerHandoff k₁.length) { s with
               consumed := s.consumed ++ [{ Value := value, Error := err, Executor := t }]
               trace := Event.sent k₁.length { Value := value, Error := err, Executor := t }
                 :: s.trace
               workers := k₁ ++ WorkerPc.wgDone t :: k₂ }
  | wgDone (s : System σ α) (k₁ k₂ : List (WorkerPc σ α)) (t : Executor σ α)
      (hw : s.workers = k₁ ++ WorkerPc.wgDone t :: k₂) (hpos : ¬ s.pool.jobWg - 1 < 0) :
      Step s (Action.workerStep k₁.length) { s with
               pool := { s.pool with jobWg := s.pool.jobWg - 1 }
               trace := Event.wgDone k₁.length t :: s.trace
               workers := k₁ ++ WorkerPc.select :: k₂ }
  | wgDonePanic (s : System σ α) (k₁ k₂ : List (WorkerPc σ α)) (t : Executor σ α)
      (hw : s.workers = k₁ ++ WorkerPc.wgDone t :: k₂) (hneg : s.pool.jobWg - 1 < 0) :
      Step s (Action.workerStep k₁.length) (s.raise Panic.negativeWaitGroupCounter)

/-! ## Invariants -/

/-- The `WaitGroup` counter counts the jobs between `jobWg.Add(1)` and `jobWg.Done()`: those
whose `AddJob` is at its send, those on the queue and those held by a worker. -/
def WgInv (s : System σ α) : Prop :=
  s.pool.jobWg =
    ((countedJobs s).length : Int) + (s.pool.jobs.buf.length : Int) + ((heldJobs s).length : Int)

/-- Every accepted job is in exactly one place: with its `AddJob` still in flight, on the
queue, held by a worker whose `Execute` has not returned, or in the record of executed jobs.
Stated for every weight `φ`, which is multiset equality. -/
def JobsInv (s : System σ α) : Prop :=
  ∀ φ : Executor σ α → Nat,
    wsum φ s.accepted =
      wsum φ (inFlightJobs s) + wsum φ s.pool.jobs.buf + wsum φ (unexecutedJobs s) +
        wsum φ (executedJobs s)

/-- Every `Result` built from a run of `Execute` is in exactly one place: read from
`Result()`, buffered on the result queue, or still to be sent by its worker. -/
def ResultsInv (s : System σ α) : Prop :=
  ∀ φ : Result σ α → Nat,
    wsum φ s.consumed + wsum φ s.pool.results.buf + wsum φ (unsentResults s) =
      wsum φ (expectedResults s)

/-- The flags set by `Stop` follow the place of the body of `p.stop.Do`. -/
def StopInv (s : System σ α) : Prop :=
  (s.pool.stop = true ↔ s.stopper ≠ StopPc.idle) ∧
  (s.pool.jobs.closed = true ↔
    s.stopper = StopPc.closeResults ∨ s.stopper = StopPc.closeDone ∨
      s.stopper = StopPc.finished) ∧
  (s.pool.results.closed = true ↔
    s.stopper = StopPc.closeDone ∨ s.stopper = StopPc.finished) ∧
  (s.pool.done = true ↔ s.stopper = StopPc.finished) ∧
  s.panicked ≠ some Panic.closeOfClosedChannel

/-- The workers are those spawned by the one effective `Start`. -/
def WorkersInv (s : System σ α) : Prop :=
  s.workers.length = if s.pool.start then s.pool.numWorkers.toNat else 0

/-- What no step changes: the configured worker count and queue capacities. -/
def SameConfig (s₀ s : System σ α) : Prop :=
  s.pool.numWorkers = s₀.pool.numWorkers ∧ s.pool.jobs.cap = s₀.pool.jobs.cap ∧
    s.pool.results.cap = s₀.pool.results.cap

/-! ## Reading a schedule -/

/-- The action is a call of `Start`. -/
def Action.isStart : Action σ α → Bool
  | Action.start => true
  | _ => false

/-- Number of calls of `Start` in a schedule. -/
def startCalls (acts : List (Action σ α)) : Nat :=
  acts.countP Action.isStart

/-- The job an action passes to `AddJob`. -/
def Action.submitted : Action σ α → List (Executor σ α)
  | Action.addJob t => [t]
  | _ => []

/-- Jobs passed to `AddJob` in a schedule, in call order. -/
def submittedJobs (acts : List (Action σ α)) : List (Executor σ α) :=
  acts.flatMap Action.submitted

/-! ## A concrete run

The pool and the two jobs of `TestPoolExecution`; the world counts the calls of `Execute` and
adds 100 per call of the error handler. -/

/-- The pool `NewPool(2, 4)` returns. -/
def samplePool : Pool Nat String :=
  { numWorkers := 2
    jobs := { cap := 4, buf := [], closed := false }
    results := { cap := 4, buf := [], closed := false }
    start := false
    stop := false
    jobWg := 0
    done := false }

/-- Job returning `("success", nil)`. -/
def successJob : Executor Nat String :=
  (NewJobWithResult (fun n => ((some "success", none), n + 1)) (fun _ n => n + 100)).toExecutor

/-- Job returning `(nil, errors.New("test error"))`. -/
def errorJob : Executor Nat String :=
  (NewJobWithResult (fun n => ((none, some "test error"), n + 1))
    (fun _ n => n + 100)).toExecutor

/-- Job built by `NewJob` from a function returning no error. -/
def quietJob : Executor Nat String :=
  (NewJob (fun n => (none, n + 1)) (fun _ n => n + 100)).toExecutor

/-- Both jobs are submitted and executed by worker 0, their results buffered. -/
def submitSchedule : List (Action Nat String) :=
  [Action.start,
   Action.addJob successJob, Action.addStep 0, Action.addStep 0,
   Action.workerRecv 0, Action.workerStep 0, Action.workerStep 0, Action.workerStep 0,
   Action.addJob errorJob, Action.addStep 1, Action.addStep 1,
   Action.workerRecv 0, Action.workerStep 0, Action.workerStep 0, Action.workerStep 0,
   Action.workerStep 0]

/-- The state `submitSchedule` ends in. -/
def sampleSubmitted : System Nat String :=
  (run (System.init samplePool 0) submitSchedule).getD (System.init samplePool 0)

/-- A call of `Stop` runs to its end, then the reader drains the two results and sees the
closed queue. -/
def stopSchedule : List (Action Nat String) :=
  [Action.stop, Action.stopStep, Action.stopStep, Action.stopStep, Action.stopStep,
   Action.consume, Action.consume, Action.consume]

/-- A complete run: `submitSchedule`, then `stopSchedule`. -/
def sampleSchedule : List (Action Nat String) :=
  submitSchedule ++ stopSchedule

/-- The state the complete run ends in. -/
def sampleFinal : System Nat String :=
  (run (System.init samplePool 0) sampleSchedule).getD (System.init samplePool 0)

/-- A run in which both workers hold a job. -/
def busySchedule : List (Action Nat String) :=
  [Action.start, Action.start,
   Action.addJob successJob, Action.addStep 0, Action.addStep 0,
   Action.addJob errorJob, Action.addStep 1, Action.addStep 1,
   Action.workerRecv 0, Action.workerRecv 1, Action.workerStep 1]

/-- The state `busySchedule` ends in. -/
def sampleBusy : System Nat String :=
  (run (System.init samplePool 0) busySchedule).getD (System.init samplePool 0)

/-- The pool `NewPool(2, 0)` returns: both queues are unbuffered. -/
def racePool : Pool Nat String :=
  { numWorkers := 2
    jobs := { cap := 0, buf := [], closed := false }
    results := { cap := 0, buf := [], closed := false }
    start := false
    stop := false
    jobWg := 0
    done := false }

/-- One thread is in `AddJob` while another runs `Stop`: `AddJob` passes its `select`, `Stop`
finds the counter at zero and closes the job queue, then `AddJob` counts the job and
sends. -/
def raceSchedule : List (Action Nat String) :=
  [Action.start,
   Action.addJob successJob,
   Action.stop, Action.stopStep, Action.stopStep,
   Action.addStep 0, Action.addStep 0]

/-- The job is handed to a worker after `Stop` passed `WaitJobs`; `Stop` closes both queues
while the job executes, then the worker sends its result. -/
def lateResultSchedule : List (Action Nat String) :=
  [Action.start,
   Action.stop, Action.stopStep,
   Action.addJob successJob, Action.addStep 0,
   Action.addHandoff 0 0, Action.workerStep 0,
   Action.stopStep, Action.stopStep,
   Action.workerStep 0]

/-- A job is queued, then the context is cancelled while both workers are at their
`select`. -/
def cancelSchedule : List (Action Nat String) :=
  [Action.start,
   Action.addJob successJob, Action.addStep 0, Action.addStep 0,
   Action.cancel]

/-- The state `cancelSchedule` ends in. -/
def sampleCancelled : System Nat String :=
  (run (System.init samplePool 0) cancelSchedule).getD (System.init samplePool 0)

/-! ## Runs of `Execute` and complete runs -/

/-- The run of `Execute` an event records: the job and the world it was called in. -/
def Event.execution : Event σ α → List (Executor σ α × σ)
  | Event.executed _ t pre => [(t, pre)]
  | _ => []

/-- The runs of `Execute` so far, newest first. -/
def executions (s : System σ α) : List (Executor σ α × σ) :=
  s.trace.flatMap Event.execution

/-- The job of the run wants a result. -/
def wantsResult (x : Executor σ α × σ) : Bool :=
  x.1.ShouldReturnResult

/-- The record `Result{Value: value, Error: err, Executor: job}` the worker builds from what
`job.Execute()` returned in that run. -/
def resultOf (x : Executor σ α × σ) : Result σ α :=
  { Value := (x.1.Execute x.2).1.1, Error := (x.1.Execute x.2).1.2, Executor := x.1 }

/-- The reader of `Result()` has seen the closed queue only after the queue was closed and
emptied. -/
def DrainInv (s : System σ α) : Prop :=
  s.streamEnded = true → s.pool.results.closed = true ∧ s.pool.results.buf = []

/-- A run to completion on the pool `p`: the schedule `acts₁` submits exactly `jobs` while
the shutdown signal is unset, the pool is started and not cancelled, and `acts₂` submits
nothing and ends in `s` with `WaitJobs` returning, no `AddJob` in flight, `Stop` completed
and the reader of `Result()` having drained the queue up to its close. -/
def CompleteRun (p : Pool σ α) (world : σ) (jobs : List (Executor σ α))
    (acts₁ acts₂ : List (Action σ α)) (s : System σ α) : Prop :=
  ∃ s₁, run (System.init p world) acts₁ = some s₁ ∧ s₁.pool.done = false ∧
    submittedJobs acts₁ = jobs ∧ run s₁ acts₂ = some s ∧ submittedJobs acts₂ = [] ∧
    s.pool.start = true ∧ s.ctxDone = false ∧ WaitJobsReturns s = true ∧
    NoAddJobInFlight s ∧ s.pool.done = true ∧ s.streamEnded = true ∧ s.panicked = none

/-! ## A schedule that completes

Worker 0 serves the jobs one after the other: each `AddJob` hands its job directly to the
waiting worker, and each result is handed directly to the reader of `Result()`. -/

/-- The world after a worker has processed job `t` starting in `world`. -/
def worldAfter (t : Executor σ α) (world : σ) : σ :=
  if (t.Execute world).1.2.isSome then
    t.OnError (t.Execute world).1.2 (t.Execute world).2
  else (t.Execute world).2

/-- The schedule serving job `t`, the `k`-th accepted one, in `world`. -/
def serve (k : Nat) (t : Executor σ α) (world : σ) : List (Action σ α) :=
  [Action.addJob t, Action.addStep k, Action.addHandoff k 0, Action.workerStep 0] ++
    ((if (t.Execute world).1.2.isSome then [Action.workerStep 0] else []) ++
      [if t.ShouldReturnResult then Action.workerHandoff 0 else Action.workerStep 0,
       Action.workerStep 0])

/-- The schedule serving a list of jobs in turn. -/
def serveAll (k : Nat) (world : σ) : List (Executor σ α) → List (Action σ α)
  | [] => []
  | t :: ts => serve k t world ++ serveAll (k + 1) (worldAfter t world) ts

/-- The schedule of `Stop` followed by the reader seeing the closed result queue. -/
def shutdown : List (Action σ α) :=
  [Action.stop, Action.stopStep, Action.stopStep, Action.stopStep, Action.stopStep,
   Action.consume]

/-- A started pool at rest: nothing queued, nothing pending, worker 0 at its `select`, all
`k` accepted `AddJob` calls returned, `Stop` not called. -/
def Quiet (s : System σ α) (k : Nat) (ws : List (WorkerPc σ α)) : Prop :=
  s.panicked = none ∧ s.pool.done = false ∧ s.pool.jobs.buf = [] ∧
    s.pool.jobs.closed = false ∧ s.pool.results.buf = [] ∧ s.pool.results.closed = false ∧
    s.pool.jobWg = 0 ∧ s.workers = WorkerPc.select :: ws ∧ s.adders.length = k ∧
    inFlightJobs s = [] ∧ s.pool.stop = false ∧ s.stopper = StopPc.idle ∧
    s.pool.start = true ∧ s.ctxDone = false

/-! ## The order of a worker's calls -/

/-- The events of worker `w`, newest first. -/
def workerTrace (w : Nat) (tr : List (Event σ α)) : List (Event σ α) :=
  tr.filter (fun e => decide (e.worker = w))

/-- Relation `Follows newer older`: the event `newer` may come right after the event `older`
in the trace of one worker.  `OnError` comes only after an `Execute` that returned that
non-nil error; a send or `Done` comes after an `Execute` only if it returned no error. -/
def Follows : Event σ α → Event σ α → Prop
  | Event.onError _ t err, Event.executed _ t' pre =>
      t = t' ∧ err = (t'.Execute pre).1.2 ∧ err ≠ none
  | Event.sent _ r, Event.executed _ t pre =>
      (t.Execute pre).1.2 = none ∧ t.ShouldReturnResult = true ∧ r = resultOf (t, pre)
  | Event.wgDone _ t, Event.executed _ t' pre =>
      t = t' ∧ (t'.Execute pre).1.2 = none ∧ t'.ShouldReturnResult = false
  | Event.sent _ r, Event.onError _ t err =>
      r.Executor = t ∧ r.Error = err ∧ t.ShouldReturnResult = true
  | Event.wgDone _ t, Event.onError _ t' _ => t = t' ∧ t'.ShouldReturnResult = false
  | Event.wgDone _ t, Event.sent _ r => t = r.Executor
  | Event.executed _ _ _, Event.wgDone _ _ => True
  | _, _ => False

/-- The trace of one worker is well formed: its oldest event is a call of `Execute` and each
event follows the one before it. -/
def WellFormed : List (Event σ α) → Prop
  | [] => True
  | [Event.executed _ _ _] => True
  | [_] => False
  | e :: e' :: rest => Follows e e' ∧ WellFormed (e' :: rest)

/-- The worker is between two jobs: it has no event yet or its newest is `jobWg.Done()`. -/
def AtRest : List (Event σ α) → Prop
  | [] => True
  | Event.wgDone _ _ :: _ => True
  | _ => False

/-- The place of a worker agrees with its newest event. -/
def PcLink : Option (WorkerPc σ α) → List (Event σ α) → Prop
  | some (WorkerPc.onError t value err), Event.executed _ t' pre :: _ =>
      t' = t ∧ (t.Execute pre).1 = (value, err) ∧ err ≠ none
  | some (WorkerPc.emit t value err), Event.executed _ t' pre :: _ =>
      t' = t ∧ (t.Execute pre).1 = (value, err) ∧ err = none
  | some (WorkerPc.emit t _ err), Event.onError _ t' err' :: _ =>
      t' = t ∧ err' = err ∧ err ≠ none
  | some (WorkerPc.wgDone t), Event.executed _ t' pre :: _ =>
      t' = t ∧ (t.Execute pre).1.2 = none ∧ t.ShouldReturnResult = false
  | some (WorkerPc.wgDone t), Event.onError _ t' _ :: _ =>
      t' = t ∧ t.ShouldReturnResult = false
  | some (WorkerPc.wgDone t), Event.sent _ r :: _ => r.Executor = t
  | some (WorkerPc.onError _ _ _), _ => False
  | some (WorkerPc.emit _ _ _), _ => False
  | some (WorkerPc.wgDone _), _ => False
  | none, tr => tr = []
  | some _, tr => AtRest tr

/-- The trace of every worker is well formed and agrees with the place of the worker. -/
def TraceInv (s : System σ α) : Prop :=
  ∀ w : Nat, WellFormed (workerTrace w s.trace) ∧ PcLink s.workers[w]? (workerTrace w s.trace)

/-! # Proofs -/

/-! ## Lists and weights -/

theorem getElem?_split {β : Type} :
    ∀ (l : List β) (i : Nat) (x : β), l[i]? = some x →
      ∃ l₁ l₂, l = l₁ ++ x :: l₂ ∧ l₁.length = i ∧ ∀ y, l.set i y = l₁ ++ y :: l₂
  | [], i, x, h => by simp at h
  | a :: l, 0, x, h => by
      simp at h
      subst h
      exact ⟨[], l, rfl, rfl, fun _ => rfl⟩
  | a :: l, i + 1, x, h => by
      simp at h
      obtain ⟨l₁, l₂, h₁, h₂, h₃⟩ := getElem?_split l i x h
      refine ⟨a :: l₁, l₂, ?_, ?_, ?_⟩
      · simp [h₁]
      · simp [h₂]
      · intro y
        simp [h₃]

theorem Chan.send_sent {τ : Type} (c c' : Chan τ) (x : τ) (h : c.send x = SendOutcome.sent c') :
    c.closed = false ∧ c.buf.length < c.cap ∧ c' = { c with buf := c.buf ++ [x] } := by
  unfold Chan.send at h
  split at h
  · simp at h
  · split at h
    · next hcl hroom =>
        simp only [SendOutcome.sent.injEq] at h
        exact ⟨by simpa using hcl, hroom, h.symm⟩
    · simp at h

theorem Chan.send_panic {τ : Type} (c : Chan τ) (x : τ) (h : c.send x = SendOutcome.panic) :
    c.closed = true := by
  unfold Chan.send at h
  split at h
  · assumption
  · split at h <;> simp at h

theorem Chan.recv_value {τ : Type} (c c' : Chan τ) (x : τ) (h : c.recv = RecvOutcome.value x c') :
    ∃ rest, c.buf = x :: rest ∧ c' = { c with buf := rest } := by
  unfold Chan.recv at h
  split at h
  · next y rest hb =>
      simp only [RecvOutcome.value.injEq] at h
      exact ⟨rest, by rw [hb, h.1], h.2.symm⟩
  · split at h <;> simp at h

theorem Chan.recv_closed {τ : Type} (c : Chan τ) (h : c.recv = RecvOutcome.closed) :
    c.closed = true ∧ c.buf = [] := by
  unfold Chan.recv at h
  split at h
  · simp at h
  · next hb =>
      split at h
      · next hc => exact ⟨hc, hb⟩
      · simp at h

theorem step_sound (s s' : System σ α) (a : Action σ α) (h : step s a = some s') :
    Step s a s' := by
  unfold step at h
  split at h
  · simp at h
  · cases a with
    | start =>
        simp only [Start, Option.some.injEq] at h
        subst h
        split
        · next hs => exact Step.startAgain s hs
        · next hs => exact Step.start s (by simpa using hs)
    | cancel => simp at h; subst h; exact Step.cancel s
    | addJob t =>
        simp only [AddJob, Option.some.injEq] at h
        subst h
        split
        · next hs => exact Step.addJobDropped s t hs
        · next hs => exact Step.addJob s t (by simpa using hs)
    | stop =>
        simp only [Stop, Option.some.injEq] at h
        subst h
        split
        · next hs => exact Step.stopAgain s hs
        · next hs => exact Step.stop s (by simpa using hs)
    | stopStep =>
        simp only [stopStep, WaitJobsReturns] at h
        split at h
        · next hpc =>
            split at h
            · next hwg =>
                simp only [Option.some.injEq] at h
                subst h
                exact Step.stopWait s hpc (by simpa using hwg)
            · simp at h
        · next hpc =>
            split at h
            · next hc =>
                simp only [Option.some.injEq] at h
                subst h
                exact Step.closePanic s (Or.inl ⟨hpc, hc⟩)
            · next hc =>
                simp only [Option.some.injEq] at h
                subst h
                exact Step.closeJobs s hpc (by simpa using hc)
        · next hpc =>
            split at h
            · next hc =>
                simp only [Option.some.injEq] at h
                subst h
                exact Step.closePanic s (Or.inr (Or.inl ⟨hpc, hc⟩))
            · next hc =>
                simp only [Option.some.injEq] at h
                subst h
                exact Step.closeResults s hpc (by simpa using hc)
        · next hpc =>
            split at h
            · next hc =>
                simp only [Option.some.injEq] at h
                subst h
                exact Step.closePanic s (Or.inr (Or.inr ⟨hpc, hc⟩))
            · next hc =>
                simp only [Option.some.injEq] at h
                subst h
                exact Step.closeDone s hpc (by simpa using hc)
        · simp at h
    | consume =>
        simp only [consume] at h
        split at h
        · next r c hc =>
            obtain ⟨rest, hb, rfl⟩ := Chan.recv_value _ _ _ hc
            simp only [Option.some.injEq] at h
            subst h
            exact Step.consumeValue s r rest hb
        · next hc =>
            simp only [Option.some.injEq] at h
            subst h
            exact Step.consumeEnd s (Chan.recv_closed _ hc).1 (Chan.recv_closed _ hc).2
        · simp at h
    | addStep i =>
        simp only [addStep] at h
        split at h
        · next t hi =>
            obtain ⟨l₁, l₂, h₁, h₂, h₃⟩ := getElem?_split _ _ _ hi
            subst h₂
            simp only [h₃, Option.some.injEq] at h
            subst h
            exact Step.addWg s l₁ l₂ t h₁
        · next t hi =>
            obtain ⟨l₁, l₂, h₁, h₂, h₃⟩ := getElem?_split _ _ _ hi
            subst h₂
            split at h
            · next c hc =>
                obtain ⟨hcl, hroom, rfl⟩ := Chan.send_sent _ _ _ hc
                simp only [h₃, Option.some.injEq] at h
                subst h
                exact Step.addSend s l₁ l₂ t h₁ hcl hroom
            · simp at h
            · next hc =>
                simp only [Option.some.injEq] at h
                subst h
                exact Step.addSendPanic s l₁ l₂ t h₁ (Chan.send_panic _ _ hc)
        · simp at h
    | addHandoff i w =>
        simp only [addHandoff] at h
        split at h
        · next t hi hw =>
            obtain ⟨l₁, l₂, h₁, h₂, h₃⟩ := getElem?_split _ _ _ hi
            subst h₂
            obtain ⟨k₁, k₂, g₁, g₂, g₃⟩ := getElem?_split _ _ _ hw
            subst g₂
            split at h
            · next hr =>
                simp only [Chan.rendezvous, Bool.and_eq_true, Bool.not_eq_true',
                  List.isEmpty_iff] at hr
                simp only [h₃, g₃, Option.some.injEq] at h
                subst h
                exact Step.addHandoff s l₁ l₂ k₁ k₂ t h₁ g₁ hr.1 hr.2
            · simp at h
        · simp at h
    | workerCtx w =>
        simp only [workerCtx] at h
        split at h
        · next hw =>
            obtain ⟨k₁, k₂, g₁, g₂, g₃⟩ := getElem?_split _ _ _ hw
            subst g₂
            split at h
            · next hc =>
                simp only [g₃, Option.some.injEq] at h
                subst h
                exact Step.workerCtx s k₁ k₂ g₁ hc
            · simp at h
        · simp at h
    | workerPoolDone w =>
        simp only [workerPoolDone] at h
        split at h
        · next hw =>
            obtain ⟨k₁, k₂, g₁, g₂, g₃⟩ := getElem?_split _ _ _ hw
            subst g₂
            split at h
            · next hc =>
                simp only [g₃, Option.some.injEq] at h
                subst h
                exact Step.workerPoolDone s k₁ k₂ g₁ hc
            · simp at h
        · simp at h
    | workerRecv w =>
        simp only [workerRecv] at h
        split at h
        · next hw =>
            obtain ⟨k₁, k₂, g₁, g₂, g₃⟩ := getElem?_split _ _ _ hw
            subst g₂
            split at h
            · next t c hc =>
                obtain ⟨rest, hb, rfl⟩ := Chan.recv_value _ _ _ hc
                simp only [g₃, Option.some.injEq] at h
                subst h
                exact Step.workerRecv s k₁ k₂ t rest g₁ hb
            · next hc =>
                simp only [g₃, Option.some.injEq] at h
                subst h
                exact Step.workerClosed s k₁ k₂ g₁ (Chan.recv_closed _ hc).1
                  (Chan.recv_closed _ hc).2
            · simp at h
        · simp at h
    | workerStep w =>
        simp only [workerStep] at h
        split at h
        · next t hw =>
            obtain ⟨k₁, k₂, g₁, g₂, g₃⟩ := getElem?_split _ _ _ hw
            simp only [g₃, Option.some.injEq] at h
            subst h
            subst g₂
            exact Step.execute s k₁ k₂ t g₁
        · next t value err hw =>
            obtain ⟨k₁, k₂, g₁, g₂, g₃⟩ := getElem?_split _ _ _ hw
            simp only [g₃, Option.some.injEq] at h
            subst h
            subst g₂
            exact Step.onError s k₁ k₂ t value err g₁
        · next t value err hw =>
            obtain ⟨k₁, k₂, g₁, g₂, g₃⟩ := getElem?_split _ _ _ hw
            subst g₂
            split at h
            · next hflag =>
                split at h
                · next c hc =>
                    obtain ⟨hcl, hroom, rfl⟩ := Chan.send_sent _ _ _ hc
                    simp only [g₃, Option.some.injEq] at h
                    subst h
                    exact Step.emitSend s k₁ k₂ t value err g₁ hflag hcl hroom
                · simp at h
                · next hc =>
                    simp only [Option.some.injEq] at h
                    subst h
                    exact Step.emitPanic s k₁ k₂ t value err g₁ hflag (Chan.send_panic _ _ hc)
            · next hflag =>
                simp only [g₃, Option.some.injEq] at h
                subst h
                exact Step.emitSkip s k₁ k₂ t value err g₁ (by simpa using hflag)
        · next t hw =>
            obtain ⟨k₁, k₂, g₁, g₂, g₃⟩ := getElem?_split _ _ _ hw
            subst g₂
            split at h
            · next hneg =>
                simp only [Option.some.injEq] at h
                subst h
                exact Step.wgDonePanic s k₁ k₂ t g₁ hneg
            · next hpos =>
                simp only [g₃, Option.some.injEq] at h
                subst h
                exact Step.wgDone s k₁ k₂ t g₁ hpos
        · simp at h
    | workerHandoff w =>
        simp only [workerHandoff] at h
        split at h
        · next t value err hw =>
            obtain ⟨k₁, k₂, g₁, g₂, g₃⟩ := getElem?_split _ _ _ hw
            subst g₂
            split at h
            · next hr =>
                simp only [Chan.rendezvous, Bool.and_eq_true, Bool.not_eq_true',
                  List.isEmpty_iff] at hr
                simp only [g₃, Option.some.injEq] at h
                subst h
                exact Step.emitHandoff s k₁ k₂ t value err g₁ hr.1 hr.2.1 hr.2.2
            · simp at h
        · simp at h

theorem run_induction (P : System σ α → Prop)
    (hstep : ∀ s s' a, Step s a s' → P s → P s') :
    ∀ (acts : List (Action σ α)) (s₀ s : System σ α), P s₀ → run s₀ acts = some s → P s
  | [], s₀, s, h0, h => by
      simp only [run, Option.some.injEq] at h
      exact h ▸ h0
  | a :: rest, s₀, s, h0, h => by
      simp only [run] at h
      cases hs : step s₀ a with
      | none => simp [hs] at h
      | some s₁ =>
          simp only [hs, Option.some_bind] at h
          exact run_induction P hstep rest s₁ s (hstep _ _ _ (step_sound _ _ _ hs) h0) h

theorem reachable_induction (P : System σ α → Prop) (s₀ s : System σ α) (h0 : P s₀)
    (hstep : ∀ s s' a, Step s a s' → P s → P s') (hr : Reachable s₀ s) : P s := by
  obtain ⟨acts, h⟩ := hr
  exact run_induction P hstep acts s₀ s h0 h

theorem wgInv_step (s s' : System σ α) (a : Action σ α) (h : Step s a s')
    (hi : WgInv s) : WgInv s' := by
  unfold WgInv countedJobs heldJobs at *
  cases h with
  | execute => split <;> simp_all [WorkerPc.held, Adder.counted]
  | _ =>
      simp_all [WorkerPc.held, Adder.counted, System.raise]
      try omega

@[simp] theorem wsum_nil {β : Type} (φ : β → Nat) : wsum φ [] = 0 := rfl

@[simp] theorem wsum_cons {β : Type} (φ : β → Nat) (x : β) (l : List β) :
    wsum φ (x :: l) = φ x + wsum φ l := by
  simp [wsum]

@[simp] theorem wsum_append {β : Type} (φ : β → Nat) (l₁ l₂ : List β) :
    wsum φ (l₁ ++ l₂) = wsum φ l₁ + wsum φ l₂ := by
  simp [wsum]

theorem flatMap_replicate_nil {β γ : Type} (f : β → List γ) (x : β) (hx : f x = []) :
    ∀ n : Nat, (List.replicate n x).flatMap f = []
  | 0 => rfl
  | n + 1 => by
      simp [List.replicate_succ, hx, flatMap_replicate_nil f x hx n]

@[simp] theorem flatMap_replicate_held (n : Nat) :
    (List.replicate n (WorkerPc.select : WorkerPc σ α)).flatMap WorkerPc.held = [] :=
  flatMap_replicate_nil _ _ rfl n

@[simp] theorem flatMap_replicate_unexecuted (n : Nat) :
    (List.replicate n (WorkerPc.select : WorkerPc σ α)).flatMap WorkerPc.unexecuted = [] :=
  flatMap_replicate_nil _ _ rfl n

@[simp] theorem flatMap_replicate_unsent (n : Nat) :
    (List.replicate n (WorkerPc.select : WorkerPc σ α)).flatMap WorkerPc.unsent = [] :=
  flatMap_replicate_nil _ _ rfl n

theorem jobsInv_step (s s' : System σ α) (a : Action σ α) (h : Step s a s')
    (hi : JobsInv s) : JobsInv s' := by
  unfold JobsInv inFlightJobs unexecutedJobs executedJobs at *
  intro φ
  have hφ := hi φ
  clear hi
  cases h with
  | execute => split <;> simp_all [WorkerPc.unexecuted, Adder.inFlight, Event.job] <;> omega
  | _ =>
      simp_all [WorkerPc.unexecuted, Adder.inFlight, Event.job, System.raise]
      try omega

theorem resultsInv_step (s s' : System σ α) (a : Action σ α) (h : Step s a s')
    (hi : ResultsInv s) : ResultsInv s' := by
  unfold ResultsInv unsentResults expectedResults at *
  intro φ
  have hφ := hi φ
  clear hi
  cases h with
  | execute =>
      split <;> simp_all [WorkerPc.unsent, Event.result] <;> split <;> simp_all <;> omega
  | _ =>
      simp_all [WorkerPc.unsent, Event.result, System.raise]
      try omega

theorem stopInv_step (s s' : System σ α) (a : Action σ α) (h : Step s a s')
    (hi : StopInv s) : StopInv s' := by
  unfold StopInv at *
  cases h with
  | closePanic hwhy =>
      exfalso
      obtain ⟨_, h₂, h₃, h₄, _⟩ := hi
      rcases hwhy with ⟨h, hc⟩ | ⟨h, hc⟩ | ⟨h, hc⟩
      · rw [h₂, h] at hc
        simp at hc
      · rw [h₃, h] at hc
        simp at hc
      · rw [h₄, h] at hc
        simp at hc
  | _ => simp_all [System.raise]

theorem workersInv_step (s s' : System σ α) (a : Action σ α) (h : Step s a s')
    (hi : WorkersInv s) : WorkersInv s' := by
  unfold WorkersInv at *
  cases h <;> simp_all [System.raise]

theorem sameConfig_step (s₀ s s' : System σ α) (a : Action σ α) (h : Step s a s')
    (hi : SameConfig s₀ s) :
    SameConfig s₀ s' := by
  unfold SameConfig at *
  cases h <;> simp_all [System.raise]

/-! ## The state after `NewPool` -/

theorem NewPool_some (rt : Runtime) (w c : Int) (p : Pool σ α)
    (h : NewPool rt w c = Except.ok (some p, none)) :
    0 < w ∧ 0 ≤ c ∧
      p = { numWorkers := w
            jobs := { cap := c.toNat, buf := [], closed := false }
            results := { cap := c.toNat, buf := [], closed := false }
            start := false
            stop := false
            jobWg := 0
            done := false } := by
  unfold NewPool at h
  split at h
  · simp at h
  · split at h
    · simp at h
    · by_cases h₁ : rt.sizeOutOfRange rt.executorSize c = true <;>
        by_cases h₂ : rt.sizeOutOfRange rt.resultSize c = true <;>
        simp [makeChan, h₁, h₂] at h
      exact ⟨by omega, by omega, h.symm⟩

theorem init_invariants (rt : Runtime) (w c : Int) (p : Pool σ α) (world : σ)
    (h : NewPool rt w c = Except.ok (some p, none)) :
    WgInv (System.init p world) ∧ JobsInv (System.init p world) ∧
      ResultsInv (System.init p world) ∧ StopInv (System.init p world) ∧
      WorkersInv (System.init p world) := by
  obtain ⟨_, _, rfl⟩ := NewPool_some rt w c p h
  refine ⟨?_, ?_, ?_, ?_, ?_⟩
  · simp [WgInv, System.init, countedJobs, heldJobs]
  · intro φ
    simp [System.init, inFlightJobs, unexecutedJobs, executedJobs]
  · intro φ
    simp [System.init, unsentResults, expectedResults]
  · simp [StopInv, System.init]
  · simp [WorkersInv, System.init]

theorem reachable_invariants (rt : Runtime) (w c : Int) (p : Pool σ α) (world : σ) (s : System σ α)
    (h : NewPool rt w c = Except.ok (some p, none)) (hr : Reachable (System.init p world) s) :
    WgInv s ∧ JobsInv s ∧ ResultsInv s ∧ StopInv s ∧ WorkersInv s ∧
      SameConfig (System.init p world) s := by
  obtain ⟨h₁, h₂, h₃, h₄, h₅⟩ := init_invariants rt w c p world h
  refine ⟨?_, ?_, ?_, ?_, ?_, ?_⟩
  · exact reachable_induction WgInv _ _ h₁ wgInv_step hr
  · exact reachable_induction JobsInv _ _ h₂ jobsInv_step hr
  · exact reachable_induction ResultsInv _ _ h₃ resultsInv_step hr
  · exact reachable_induction StopInv _ _ h₄ stopInv_step hr
  · exact reachable_induction WorkersInv _ _ h₅ workersInv_step hr
  · exact reachable_induction (SameConfig (System.init p world)) _ _ ⟨rfl, rfl, rfl⟩
      (fun s s' a => sameConfig_step _ s s' a) hr

/-! ## From weights to permutations -/

theorem perm_of_wsum {β : Type} (l₁ l₂ : List β)
    (h : ∀ φ : β → Nat, wsum φ l₁ = wsum φ l₂) : l₁.Perm l₂ := by
  classical
  rw [List.perm_iff_count]
  intro a
  have hc : ∀ l : List β, wsum (fun x => if x = a then 1 else 0) l = l.count a := by
    intro l
    induction l with
    | nil => simp
    | cons x l ih =>
        simp only [wsum_cons, ih, List.count_cons]
        by_cases hx : x = a
        · simp [hx, Nat.add_comm]
        · simp [hx]
  rw [← hc l₁, ← hc l₂]
  exact h _

theorem length_flatMap_held_le (l : List (WorkerPc σ α)) :
    (l.flatMap WorkerPc.held).length ≤ l.length := by
  induction l with
  | nil => simp
  | cons x l ih =>
      cases x <;>
        simp only [List.flatMap_cons, List.length_append, List.length_cons, List.length_nil,
          WorkerPc.held] <;> omega

theorem unexecuted_nil_of_held_nil (l : List (WorkerPc σ α))
    (h : l.flatMap WorkerPc.held = []) : l.flatMap WorkerPc.unexecuted = [] := by
  induction l with
  | nil => rfl
  | cons x l ih =>
      cases x <;> simp_all [WorkerPc.held, WorkerPc.unexecuted]

theorem unsent_nil_of_held_nil (l : List (WorkerPc σ α))
    (h : l.flatMap WorkerPc.held = []) : l.flatMap WorkerPc.unsent = [] := by
  induction l with
  | nil => rfl
  | cons x l ih =>
      cases x <;> simp_all [WorkerPc.held, WorkerPc.unsent]

/-- When the counter is zero the queue is empty and no worker holds a job. -/
theorem quiescent_of_wg_zero (s : System σ α) (hi : WgInv s) (hwg : s.pool.jobWg = 0) :
    s.pool.jobs.buf = [] ∧ heldJobs s = [] := by
  unfold WgInv at hi
  rw [hwg] at hi
  constructor
  · apply List.length_eq_zero.mp
    omega
  · apply List.length_eq_zero.mp
    omega

/-! ## Monotone flags and the jobs a schedule submits -/

theorem done_mono_step (s s' : System σ α) (a : Action σ α) (h : Step s a s')
    (hd : s.pool.done = true) : s'.pool.done = true := by
  cases h <;> simp_all [System.raise]

theorem start_mono_step (s s' : System σ α) (a : Action σ α) (h : Step s a s')
    (hd : s.pool.start = true) : s'.pool.start = true := by
  cases h <;> simp_all [System.raise]

theorem started_step (s s' : System σ α) (a : Action σ α) (h : Step s a s')
    (ha : a.isStart = true) : s'.pool.start = true := by
  cases h <;> simp_all [Action.isStart]

theorem accepted_step (s s' : System σ α) (a : Action σ α) (h : Step s a s')
    (hd : s'.pool.done = false) : s'.accepted = a.submitted ++ s.accepted := by
  cases h <;> simp_all [Action.submitted, System.raise]

theorem run_cons (s₀ s : System σ α) (a : Action σ α) (rest : List (Action σ α))
    (h : run s₀ (a :: rest) = some s) : ∃ s₁, step s₀ a = some s₁ ∧ run s₁ rest = some s := by
  simp only [run] at h
  cases hs : step s₀ a with
  | none => simp [hs] at h
  | some s₁ => exact ⟨s₁, rfl, by simpa [hs] using h⟩

theorem run_done_mono (acts : List (Action σ α)) (s₀ s : System σ α)
    (h : run s₀ acts = some s) (hd : s₀.pool.done = true) : s.pool.done = true :=
  run_induction (fun s => s.pool.done = true) done_mono_step acts s₀ s hd h

theorem run_start_mono (acts : List (Action σ α)) (s₀ s : System σ α)
    (h : run s₀ acts = some s) (hd : s₀.pool.start = true) : s.pool.start = true :=
  run_induction (fun s => s.pool.start = true) start_mono_step acts s₀ s hd h

theorem run_accepted :
    ∀ (acts : List (Action σ α)) (s₀ s : System σ α), run s₀ acts = some s →
      s.pool.done = false → s.accepted = (submittedJobs acts).reverse ++ s₀.accepted
  | [], s₀, s, h, _ => by
      simp only [run, Option.some.injEq] at h
      simp [submittedJobs, h]
  | a :: rest, s₀, s, h, hd => by
      obtain ⟨s₁, h₁, h₂⟩ := run_cons s₀ s a rest h
      have hd₁ : s₁.pool.done = false := by
        cases hc : s₁.pool.done with
        | false => rfl
        | true => rw [run_done_mono rest s₁ s h₂ hc] at hd; exact absurd hd (by simp)
      rw [run_accepted rest s₁ s h₂ hd, accepted_step s₀ s₁ a (step_sound _ _ _ h₁) hd₁]
      have hrev : a.submitted.reverse = a.submitted := by
        cases a <;> rfl
      simp [submittedJobs, hrev]

theorem run_started :
    ∀ (acts : List (Action σ α)) (s₀ s : System σ α), run s₀ acts = some s →
      1 ≤ startCalls acts → s.pool.start = true
  | [], s₀, s, _, hn => by simp [startCalls] at hn
  | a :: rest, s₀, s, h, hn => by
      obtain ⟨s₁, h₁, h₂⟩ := run_cons s₀ s a rest h
      cases ha : a.isStart with
      | true =>
          exact run_start_mono rest s₁ s h₂ (started_step s₀ s₁ a (step_sound _ _ _ h₁) ha)
      | false =>
          apply run_started rest s₁ s h₂
          simpa [startCalls, List.countP_cons, ha] using hn

/-! ## The claims -/

/-- Claim C1 fails as stated: on linux/amd64 `NewPool(1, 1 << 44)` passes both guards and
panics in `make(chan Executor, jobChannelSize)` (16 bytes times `1 << 44` exceeds
`maxAlloc - hchanSize`, whatever the size of the channel header), so it returns neither a
pool nor an error. -/
theorem NewPool_huge_capacity_panics :
    ¬ ((1 : Int) ≤ 0 ∨ (2 : Int) ^ 44 < 0) ∧
      (NewPool Runtime.amd64 1 (2 ^ 44) : Except Panic (Option (Pool Nat String) × GoError)) =
        Except.error Panic.makechanSizeOutOfRange := by
  constructor
  · decide
  · rfl

/-- Claim C1 as amended: whenever `NewPool(w, c)` returns, it returns a non-nil error exactly
when `w ≤ 0` or `c < 0`, and then the pool is nil; with `w ≤ 0` or `c < 0` it always returns
that error; with `w > 0` and `c ≥ 0` it returns, when the size check of `make` accepts `c`
for both queues, no error and a pool with `w` workers, two empty open queues of capacity `c`,
not started, not stopped, with a zero pending count, and otherwise it panics with
`makechan: size out of range`. -/
theorem NewPool_error_iff (rt : Runtime) (w c : Int) :
    ((w ≤ 0 ∨ c < 0) →
      ∃ msg, (NewPool rt w c : Except Panic (Option (Pool σ α) × GoError)) =
        Except.ok (none, some msg)) ∧
    (0 < w → 0 ≤ c → rt.sizeOutOfRange rt.executorSize c = false →
      rt.sizeOutOfRange rt.resultSize c = false →
      (NewPool rt w c : Except Panic (Option (Pool σ α) × GoError)) =
          Except.ok (some { numWorkers := w
                            jobs := { cap := c.toNat, buf := [], closed := false }
                            results := { cap := c.toNat, buf := [], closed := false }
                            start := false
                            stop := false
                            jobWg := 0
                            done := false }, none) ∧
        (c.toNat : Int) = c) ∧
    (0 < w → 0 ≤ c →
      (rt.sizeOutOfRange rt.executorSize c = true ∨ rt.sizeOutOfRange rt.resultSize c = true) →
      (NewPool rt w c : Except Panic (Option (Pool σ α) × GoError)) =
        Except.error Panic.makechanSizeOutOfRange) ∧
    (∀ r, (NewPool rt w c : Except Panic (Option (Pool σ α) × GoError)) = Except.ok r →
      ((r.2 ≠ none ↔ (w ≤ 0 ∨ c < 0)) ∧ (r.2 ≠ none ↔ r.1 = none))) := by
  refine ⟨?_, ?_, ?_, ?_⟩
  · intro h
    unfold NewPool
    by_cases hw : w ≤ 0
    · exact ⟨"numWorkers must be greater than zero", by simp [hw]⟩
    · have hc : c < 0 := by omega
      exact ⟨"jobChannelSize cannot be negative", by simp [hw, hc]⟩
  · intro hw hc h₁ h₂
    have hw' : ¬ w ≤ 0 := by omega
    have hc' : ¬ c < 0 := by omega
    constructor
    · simp [NewPool, makeChan, hw', hc', h₁, h₂]
    · omega
  · intro hw hc h
    have hw' : ¬ w ≤ 0 := by omega
    have hc' : ¬ c < 0 := by omega
    by_cases h₁ : rt.sizeOutOfRange rt.executorSize c = true
    · simp [NewPool, makeChan, hw', hc', h₁]
    · have h₂ : rt.sizeOutOfRange rt.resultSize c = true := by
        rcases h with h | h
        · exact absurd h h₁
        · exact h
      simp [NewPool, makeChan, hw', hc', h₁, h₂]
  · intro r hr
    unfold NewPool at hr
    by_cases hw : w ≤ 0
    · simp only [hw, if_true, Except.ok.injEq] at hr
      subst hr
      simp [hw]
    · by_cases hc : c < 0
      · simp only [hw, hc, if_true, if_false, Except.ok.injEq] at hr
        subst hr
        simp [hc]
      · by_cases h₁ : rt.sizeOutOfRange rt.executorSize c = true <;>
          by_cases h₂ : rt.sizeOutOfRange rt.resultSize c = true <;>
          simp [makeChan, hw, hc, h₁, h₂] at hr
        subst hr
        simp [hw, hc]

/-- Witness of the amended C1: on linux/amd64 the size check accepts capacity 4 for both
queues and `NewPool(2, 4)` returns the sample pool. -/
theorem NewPool_error_iff_witness :
    (0 : Int) < 2 ∧ (0 : Int) ≤ 4 ∧
      Runtime.amd64.sizeOutOfRange Runtime.amd64.executorSize 4 = false ∧
      Runtime.amd64.sizeOutOfRange Runtime.amd64.resultSize 4 = false ∧
      (NewPool Runtime.amd64 2 4 : Except Panic (Option (Pool Nat String) × GoError)) =
        Except.ok (some samplePool, none) :=
  ⟨by decide, by decide, by decide, by decide,
    ((NewPool_error_iff Runtime.amd64 2 4).2.1 (by decide) (by decide) (by decide)
      (by decide)).1⟩

/-- Claim C8: a job built by `NewJob(f, h)` wants no result and its `Execute` returns
`(nil, f())`; a job built by `NewJobWithResult(g, h)` wants a result and its `Execute` returns
exactly `g()`; in both cases `OnError(e)` is `h(e)`. -/
theorem NewJob_NewJobWithResult_spec (f : σ → GoError × σ) (g : σ → (Option α × GoError) × σ)
    (h : GoError → σ → σ) (e : GoError) (world : σ) :
    (NewJob f h : job σ α).ShouldReturnResult = false ∧
    (NewJob f h : job σ α).Execute world = ((none, (f world).1), (f world).2) ∧
    (NewJob f h : job σ α).OnError e world = h e world ∧
    (NewJobWithResult g h).ShouldReturnResult = true ∧
    (NewJobWithResult g h).Execute world = g world ∧
    (NewJobWithResult g h).OnError e world = h e world :=
  ⟨rfl, rfl, rfl, rfl, rfl, rfl⟩

/-- Claim C6: on a pool whose shutdown signal is set, `AddJob(t)` returns at once and changes
nothing: the step is enabled and yields the same state (pending count, job queue, result
queue, goroutines and panic mark included), so every later behaviour is a behaviour of the
state without the call and `t` is never executed on account of it. -/
theorem AddJob_after_Stop_noop (s : System σ α) (t : Executor σ α) (acts : List (Action σ α))
    (hdone : s.pool.done = true) (hlive : s.panicked = none) :
    step s (Action.addJob t) = some s ∧ AddJob s t = s ∧
      (AddJob s t).pool.jobWg = s.pool.jobWg ∧
      (AddJob s t).pool.jobs = s.pool.jobs ∧
      (AddJob s t).pool.results = s.pool.results ∧
      (AddJob s t).accepted = s.accepted ∧
      inFlightJobs (AddJob s t) = inFlightJobs s ∧
      run s (Action.addJob t :: acts) = run s acts := by
  have h : AddJob s t = s := by simp [AddJob, hdone]
  have hs : step s (Action.addJob t) = some s := by simp [step, hlive, h]
  refine ⟨hs, h, ?_, ?_, ?_, ?_, ?_, ?_⟩ <;> simp [h, hs, run]

/-- Claim C4: in every state reachable from a pool built by `NewPool(w, c)`, however many
times `Start` is called, the number of jobs whose `Execute` has begun and whose
`jobWg.Done()` has not happened is at most `w`. -/
theorem executing_le_numWorkers (rt : Runtime) (w c : Int) (p : Pool σ α) (world : σ) (s : System σ α)
    (hp : NewPool rt w c = Except.ok (some p, none)) (hr : Reachable (System.init p world) s) :
    (executingCount s : Int) ≤ w := by
  obtain ⟨_, _, _, _, hW, hC, _⟩ := reachable_invariants rt w c p world s hp hr
  obtain ⟨hw, _, rfl⟩ := NewPool_some rt w c p hp
  have h₁ : executingCount s ≤ s.workers.length := length_flatMap_held_le s.workers
  unfold WorkersInv at hW
  simp only [System.init] at hC
  rw [hC] at hW
  split at hW <;> omega

/-- Claim C3: in every state reachable from a pool built by `NewPool` in which `WaitJobs`
returns (the pending count is zero) and no `AddJob` is in flight, the runs of `Execute`
recorded so far, one entry per run by one worker, are exactly the accepted jobs, each once;
and while the shutdown signal is unset the accepted jobs are all the jobs passed to
`AddJob`. -/
theorem WaitJobs_returns_after_all_executed (rt : Runtime) (w c : Int) (p : Pool σ α) (world : σ)
    (acts : List (Action σ α)) (s : System σ α)
    (hp : NewPool rt w c = Except.ok (some p, none)) (hrun : run (System.init p world) acts = some s)
    (hwait : WaitJobsReturns s = true) (hno : NoAddJobInFlight s) :
    (executedJobs s).Perm s.accepted ∧
      (s.pool.done = false → s.accepted = (submittedJobs acts).reverse) := by
  obtain ⟨hW, hJ, _⟩ := reachable_invariants rt w c p world s hp ⟨acts, hrun⟩
  have hwg : s.pool.jobWg = 0 := by simpa [WaitJobsReturns] using hwait
  obtain ⟨hbuf, hheld⟩ := quiescent_of_wg_zero s hW hwg
  constructor
  · apply List.Perm.symm
    apply perm_of_wsum
    intro φ
    have h := hJ φ
    unfold NoAddJobInFlight at hno
    have hu : unexecutedJobs s = [] := unexecuted_nil_of_held_nil _ hheld
    rw [hno, hbuf, hu] at h
    simpa using h
  · intro hd
    have h := run_accepted acts _ s hrun hd
    simpa [System.init] using h

/-- Claim C7: after a schedule with at least one call of `Start` on a pool built by
`NewPool(w, c)` exactly `w` worker goroutines exist, however many calls there were; a call of
`Stop` made once `Stop` has been entered leaves the state unchanged; the queues and the
shutdown signal are closed by the one body of `p.stop.Do`, each once, so the program never
panics with a close of a closed channel. -/
theorem Start_Stop_once (rt : Runtime) (w c : Int) (p : Pool σ α) (world : σ)
    (acts : List (Action σ α)) (s : System σ α)
    (hp : NewPool rt w c = Except.ok (some p, none)) (hrun : run (System.init p world) acts = some s) :
    (1 ≤ startCalls acts → (s.workers.length : Int) = w) ∧
      (s.pool.stop = true → Stop s = s) ∧
      (s.stopper = StopPc.finished →
        s.pool.stop = true ∧ s.pool.jobs.closed = true ∧ s.pool.results.closed = true ∧
          s.pool.done = true) ∧
      s.panicked ≠ some Panic.closeOfClosedChannel := by
  obtain ⟨_, _, _, hS, hW, hC, _⟩ := reachable_invariants rt w c p world s hp ⟨acts, hrun⟩
  obtain ⟨hw, _, rfl⟩ := NewPool_some rt w c p hp
  obtain ⟨h₁, h₂, h₃, h₄, h₅⟩ := hS
  refine ⟨?_, ?_, ?_, h₅⟩
  · intro hcalls
    have hst := run_started acts _ s hrun hcalls
    unfold WorkersInv at hW
    simp only [System.init] at hC
    rw [hC, hst] at hW
    simp only [if_true] at hW
    omega
  · intro h
    simp [Stop, h]
  · intro h
    exact ⟨h₁.mpr (by simp [h]), h₂.mpr (by simp [h]), h₃.mpr (by simp [h]), h₄.mpr h⟩

/-- Witness of C6: after the complete sample run the shutdown signal is set, and a further
`AddJob` is accepted as a step that leaves the state as it is. -/
theorem AddJob_after_Stop_noop_witness :
    sampleFinal.pool.done = true ∧ sampleFinal.panicked = none ∧
      step sampleFinal (Action.addJob quietJob) = some sampleFinal :=
  ⟨rfl, rfl, (AddJob_after_Stop_noop sampleFinal quietJob [] rfl rfl).1⟩

/-- Witness of C4: with both workers of `NewPool(2, 4)` holding a job, two jobs execute. -/
theorem executing_le_numWorkers_witness :
    (NewPool Runtime.amd64 2 4 : Except Panic (Option (Pool Nat String) × GoError)) =
        Except.ok (some samplePool, none) ∧
      Reachable (System.init samplePool 0) sampleBusy ∧ executingCount sampleBusy = 2 ∧
      (executingCount sampleBusy : Int) ≤ 2 :=
  ⟨rfl, ⟨busySchedule, rfl⟩, rfl,
    executing_le_numWorkers Runtime.amd64 2 4 samplePool 0 sampleBusy rfl ⟨busySchedule, rfl⟩⟩

/-- Witness of C3: at the end of the complete sample run `WaitJobs` returns, no `AddJob` is
in flight, and the two jobs have each been executed once. -/
theorem WaitJobs_returns_after_all_executed_witness :
    run (System.init samplePool 0) sampleSchedule = some sampleFinal ∧
      WaitJobsReturns sampleFinal = true ∧ NoAddJobInFlight sampleFinal ∧
      (executedJobs sampleFinal).Perm sampleFinal.accepted ∧
      sampleFinal.accepted = [errorJob, successJob] :=
  ⟨rfl, rfl, rfl,
    (WaitJobs_returns_after_all_executed Runtime.amd64 2 4 samplePool 0 sampleSchedule sampleFinal rfl rfl
      rfl rfl).1, rfl⟩

/-- Witness of C7: `busySchedule` calls `Start` twice on `NewPool(2, 4)` and two workers
exist; at the end of the complete sample run `Stop` has completed and a further call of
`Stop` leaves the state as it is. -/
theorem Start_Stop_once_witness :
    run (System.init samplePool 0) busySchedule = some sampleBusy ∧
      startCalls busySchedule = 2 ∧ (sampleBusy.workers.length : Int) = 2 ∧
      run (System.init samplePool 0) sampleSchedule = some sampleFinal ∧
      sampleFinal.stopper = StopPc.finished ∧ sampleFinal.pool.stop = true ∧
      Stop sampleFinal = sampleFinal :=
  ⟨rfl, by decide,
    (Start_Stop_once Runtime.amd64 2 4 samplePool 0 busySchedule sampleBusy rfl rfl).1
      (by decide),
    rfl, rfl, rfl,
    (Start_Stop_once Runtime.amd64 2 4 samplePool 0 sampleSchedule sampleFinal rfl
      rfl).2.1 rfl⟩

/-- Claim C9, the code at the failing schedule: on `NewPool(2, 0)` with `AddJob` in flight
while `Stop` runs, `AddJob` sends on the job queue `Stop` has closed and the program panics;
the job is counted in the pending count and never executed.  With the other schedule a worker
sends on the closed result queue. -/
theorem AddJob_Stop_race_panics :
    (NewPool Runtime.amd64 2 0 : Except Panic (Option (Pool Nat String) × GoError)) =
        Except.ok (some racePool, none) ∧
      (run (System.init racePool 0) raceSchedule).map (fun s => s.panicked) =
        some (some Panic.sendOnClosedChannel) ∧
      (run (System.init racePool 0) raceSchedule).map (fun s => s.pool.jobs.closed) =
        some true ∧
      (run (System.init racePool 0) raceSchedule).map (fun s => s.pool.jobWg) = some 1 ∧
      (run (System.init racePool 0) raceSchedule).map (fun s => (executedJobs s).length) =
        some 0 ∧
      (run (System.init racePool 0) lateResultSchedule).map (fun s => s.panicked) =
        some (some Panic.sendOnClosedChannel) ∧
      (run (System.init racePool 0) lateResultSchedule).map (fun s => s.pool.results.closed) =
        some true := by
  refine ⟨rfl, ?_, ?_, ?_, ?_, ?_, ?_⟩ <;> decide

/-- Claim C10 fails as stated: after `cancelSchedule` the context is cancelled, worker 0 is at
its `select` and a job is queued; the `select` may take the job, which is then executed and
its pending count decremented. -/
theorem cancelled_worker_dequeues :
    Reachable (System.init samplePool 0) sampleCancelled ∧
      sampleCancelled.ctxDone = true ∧
      sampleCancelled.workers[0]? = some WorkerPc.select ∧
      sampleCancelled.pool.jobs.buf = [successJob] ∧
      (step sampleCancelled (Action.workerRecv 0)).map (fun s => s.workers[0]?) =
        some (some (WorkerPc.running successJob)) ∧
      (run sampleCancelled
          [Action.workerRecv 0, Action.workerStep 0, Action.workerStep 0,
           Action.workerStep 0]).map (fun s => executedJobs s) = some [successJob] ∧
      sampleCancelled.pool.jobWg = 1 ∧
      (run sampleCancelled
          [Action.workerRecv 0, Action.workerStep 0, Action.workerStep 0,
           Action.workerStep 0]).map (fun s => s.pool.jobWg) = some 0 :=
  ⟨⟨cancelSchedule, rfl⟩, rfl, rfl, rfl, rfl, rfl, rfl, rfl⟩

/-- Claim C10 as amended: once the cancellation token or the shutdown signal has fired, a
worker at its `select` can exit, and exiting leaves the pool (job queue and pending count
included) and the record of executions as they are; when it takes the job case instead it
either exits on the closed empty queue or dequeues the job at the head of the queue. -/
theorem cancelled_worker_may_exit (s : System σ α) (w : Nat)
    (hw : s.workers[w]? = some WorkerPc.select) (hlive : s.panicked = none)
    (hfired : s.ctxDone = true ∨ s.pool.done = true) :
    (∃ s', (step s (Action.workerCtx w) = some s' ∨
          step s (Action.workerPoolDone w) = some s') ∧
        s'.workers = s.workers.set w WorkerPc.exited ∧ s'.pool = s.pool ∧
        s'.trace = s.trace) ∧
      (∀ s', step s (Action.workerRecv w) = some s' →
        (s'.workers[w]? = some WorkerPc.exited ∧ s'.pool = s.pool ∧ s'.trace = s.trace) ∨
          ∃ t rest, s.pool.jobs.buf = t :: rest ∧
            s'.workers[w]? = some (WorkerPc.running t)) := by
  have hlt : w < s.workers.length := by
    rcases Nat.lt_or_ge w s.workers.length with h | h
    · exact h
    · rw [List.getElem?_eq_none h] at hw
      simp at hw
  constructor
  · rcases hfired with h | h
    · exact ⟨{ s with workers := s.workers.set w WorkerPc.exited },
        Or.inl (by simp [step, hlive, workerCtx, hw, h]), rfl, rfl, rfl⟩
    · exact ⟨{ s with workers := s.workers.set w WorkerPc.exited },
        Or.inr (by simp [step, hlive, workerPoolDone, hw, h]), rfl, rfl, rfl⟩
  · intro s' hs
    simp only [step, hlive, Option.isSome_none, Bool.false_eq_true, if_false, workerRecv,
      hw] at hs
    split at hs
    · next t c hc =>
        obtain ⟨rest, hb, rfl⟩ := Chan.recv_value _ _ _ hc
        simp only [Option.some.injEq] at hs
        subst hs
        exact Or.inr ⟨t, rest, hb, by simp [hlt]⟩
    · simp only [Option.some.injEq] at hs
      subst hs
      exact Or.inl ⟨by simp [hlt], rfl, rfl⟩
    · simp at hs

/-- Witness of the amended C10: worker 1 of the cancelled sample state can exit. -/
theorem cancelled_worker_may_exit_witness :
    sampleCancelled.workers[1]? = some WorkerPc.select ∧ sampleCancelled.panicked = none ∧
      sampleCancelled.ctxDone = true ∧
      ∃ s', (step sampleCancelled (Action.workerCtx 1) = some s' ∨
          step sampleCancelled (Action.workerPoolDone 1) = some s') ∧
        s'.workers = sampleCancelled.workers.set 1 WorkerPc.exited ∧
        s'.pool = sampleCancelled.pool ∧ s'.trace = sampleCancelled.trace :=
  ⟨rfl, rfl, rfl, (cancelled_worker_may_exit sampleCancelled 1 rfl rfl (Or.inl rfl)).1⟩

/-! ## The result stream -/

theorem drainInv_step (s s' : System σ α) (a : Action σ α) (h : Step s a s')
    (hi : DrainInv s) : DrainInv s' := by
  unfold DrainInv at *
  cases h <;> simp_all [System.raise]

theorem accepted_frame_step (s s' : System σ α) (a : Action σ α) (h : Step s a s')
    (ha : a.submitted = []) : s'.accepted = s.accepted := by
  cases h <;> simp_all [Action.submitted, System.raise]

theorem run_accepted_frame :
    ∀ (acts : List (Action σ α)) (s₀ s : System σ α), run s₀ acts = some s →
      submittedJobs acts = [] → s.accepted = s₀.accepted
  | [], s₀, s, h, _ => by
      simp only [run, Option.some.injEq] at h
      rw [h]
  | a :: rest, s₀, s, h, hn => by
      obtain ⟨s₁, h₁, h₂⟩ := run_cons s₀ s a rest h
      simp only [submittedJobs, List.flatMap_cons, List.append_eq_nil] at hn
      rw [run_accepted_frame rest s₁ s h₂ hn.2,
        accepted_frame_step s₀ s₁ a (step_sound _ _ _ h₁) hn.1]

theorem run_append (s₀ s₁ s : System σ α) :
    ∀ (acts₁ acts₂ : List (Action σ α)), run s₀ acts₁ = some s₁ → run s₁ acts₂ = some s →
      run s₀ (acts₁ ++ acts₂) = some s := by
  intro acts₁
  induction acts₁ generalizing s₀ with
  | nil =>
      intro acts₂ h₁ h₂
      simp only [run, Option.some.injEq] at h₁
      simpa [h₁] using h₂
  | cons a rest ih =>
      intro acts₂ h₁ h₂
      obtain ⟨s', hs, hr⟩ := run_cons s₀ s₁ a rest h₁
      simp only [List.cons_append, run, hs, Option.some_bind]
      exact ih s' acts₂ hr h₂

theorem executedJobs_eq_map (s : System σ α) :
    executedJobs s = (executions s).map Prod.fst := by
  unfold executedJobs executions
  induction s.trace with
  | nil => rfl
  | cons e l ih => cases e <;> simp [Event.job, Event.execution, ih]

theorem expectedResults_eq_map (s : System σ α) :
    expectedResults s = ((executions s).filter wantsResult).map resultOf := by
  unfold expectedResults executions
  induction s.trace with
  | nil => rfl
  | cons e l ih =>
      cases e with
      | executed w t pre =>
          by_cases hf : t.ShouldReturnResult = true <;>
            simp [Event.result, Event.execution, ih, hf, wantsResult, resultOf,
              List.filter_cons]
      | _ => simp [Event.result, Event.execution, ih]

theorem filter_map_fst (l : List (Executor σ α × σ)) :
    (l.map Prod.fst).filter (fun t => t.ShouldReturnResult) =
      (l.filter wantsResult).map Prod.fst := by
  induction l with
  | nil => rfl
  | cons x l ih =>
      by_cases hf : x.1.ShouldReturnResult = true <;>
        simp [List.filter_cons, wantsResult, hf, ih]

theorem executed_perm_accepted (s : System σ α) (hW : WgInv s) (hJ : JobsInv s)
    (hwg : s.pool.jobWg = 0) (hno : NoAddJobInFlight s) :
    (executedJobs s).Perm s.accepted := by
  obtain ⟨hbuf, hheld⟩ := quiescent_of_wg_zero s hW hwg
  apply List.Perm.symm
  apply perm_of_wsum
  intro φ
  have h := hJ φ
  unfold NoAddJobInFlight at hno
  have hu : unexecutedJobs s = [] := unexecuted_nil_of_held_nil _ hheld
  rw [hno, hbuf, hu] at h
  simpa using h

theorem consumed_perm_expected (s : System σ α) (hW : WgInv s) (hR : ResultsInv s)
    (hD : DrainInv s) (hwg : s.pool.jobWg = 0) (hend : s.streamEnded = true) :
    s.consumed.Perm (expectedResults s) := by
  obtain ⟨_, hheld⟩ := quiescent_of_wg_zero s hW hwg
  apply perm_of_wsum
  intro φ
  have h := hR φ
  have hu : unsentResults s = [] := unsent_nil_of_held_nil _ hheld
  rw [(hD hend).2, hu] at h
  simpa using h

theorem complete_run_results (rt : Runtime) (w c : Int) (p : Pool σ α) (world : σ)
    (jobs : List (Executor σ α)) (acts₁ acts₂ : List (Action σ α)) (s : System σ α)
    (hp : NewPool rt w c = Except.ok (some p, none)) (h : CompleteRun p world jobs acts₁ acts₂ s) :
    ((executions s).map Prod.fst).Perm jobs ∧
      s.consumed.Perm (((executions s).filter wantsResult).map resultOf) ∧
      s.consumed.length = (jobs.filter (fun t => t.ShouldReturnResult)).length := by
  obtain ⟨s₁, h₁, hd₁, hsub, h₂, hnone, _, _, hwait, hno, _, hend, _⟩ := h
  have hrun := run_append _ _ _ acts₁ acts₂ h₁ h₂
  obtain ⟨hW, hJ, hR, _⟩ := reachable_invariants rt w c p world s hp ⟨_, hrun⟩
  have hD : DrainInv s :=
    run_induction DrainInv drainInv_step _ _ s (by simp [DrainInv, System.init]) hrun
  have hwg : s.pool.jobWg = 0 := by simpa [WaitJobsReturns] using hwait
  have hacc : s.accepted = jobs.reverse := by
    rw [run_accepted_frame acts₂ s₁ s h₂ hnone, run_accepted acts₁ _ s₁ h₁ hd₁, hsub]
    simp [System.init]
  have hjobs : ((executions s).map Prod.fst).Perm jobs := by
    rw [← executedJobs_eq_map]
    exact (hacc ▸ executed_perm_accepted s hW hJ hwg hno).trans (List.reverse_perm jobs)
  have hres : s.consumed.Perm (((executions s).filter wantsResult).map resultOf) := by
    rw [← expectedResults_eq_map]
    exact consumed_perm_expected s hW hR hD hwg hend
  refine ⟨hjobs, hres, ?_⟩
  rw [hres.length_eq, List.length_map,
    ← (hjobs.filter (fun t => t.ShouldReturnResult)).length_eq, filter_map_fst,
    List.length_map]

/-! ## Every job list has a complete run -/

theorem set_concat_length {β : Type} (l : List β) (x y : β) :
    (l ++ [x]).set l.length y = l ++ [y] := by
  induction l with
  | nil => rfl
  | cons a l ih => simp [ih]

set_option maxHeartbeats 1600000 in
theorem serve_run (s : System σ α) (k : Nat) (ws : List (WorkerPc σ α)) (t : Executor σ α)
    (hq : Quiet s k ws) :
    ∃ s', run s (serve k t s.world) = some s' ∧ Quiet s' (k + 1) ws ∧
      s'.world = worldAfter t s.world := by
  obtain ⟨h₁, h₂, h₃, h₄, h₅, h₆, h₇, h₈, h₉, h₁₀, h₁₁, h₁₂, h₁₃, h₁₄⟩ := hq
  subst h₉
  unfold inFlightJobs at h₁₀
  by_cases he : (t.Execute s.world).1.2.isSome = true <;>
    by_cases hf : t.ShouldReturnResult = true <;>
    simp [serve, run, step, AddJob, addStep, addHandoff, workerStep, workerHandoff,
      Chan.send, Chan.rendezvous, Quiet, worldAfter, inFlightJobs, Adder.inFlight,
      set_concat_length, h₁, h₂, h₃, h₄, h₅, h₆, h₇, h₈, h₁₀, h₁₁, h₁₂, h₁₃, h₁₄, he, hf,
      -List.flatMap_eq_nil_iff]

theorem serveAll_run :
    ∀ (jobs : List (Executor σ α)) (s : System σ α) (k : Nat) (ws : List (WorkerPc σ α)),
      Quiet s k ws →
        ∃ s', run s (serveAll k s.world jobs) = some s' ∧ Quiet s' (k + jobs.length) ws
  | [], s, k, ws, hq => ⟨s, rfl, by simpa using hq⟩
  | t :: ts, s, k, ws, hq => by
      obtain ⟨s₁, h₁, hq₁, hw₁⟩ := serve_run s k ws t hq
      obtain ⟨s₂, h₂, hq₂⟩ := serveAll_run ts s₁ (k + 1) ws hq₁
      rw [hw₁] at h₂
      refine ⟨s₂, run_append _ _ _ _ _ h₁ h₂, ?_⟩
      have hk : k + (t :: ts).length = k + 1 + ts.length := by
        simp only [List.length_cons]
        omega
      rw [hk]
      exact hq₂

theorem submitted_serve (k : Nat) (t : Executor σ α) (world : σ) :
    submittedJobs (serve k t world) = [t] := by
  unfold submittedJobs serve
  by_cases he : (t.Execute world).1.2.isSome = true <;>
    by_cases hf : t.ShouldReturnResult = true <;>
    simp [Action.submitted, he, hf]

theorem submitted_serveAll :
    ∀ (jobs : List (Executor σ α)) (k : Nat) (world : σ),
      submittedJobs (serveAll k world jobs) = jobs
  | [], _, _ => rfl
  | t :: ts, k, world => by
      have h₁ := submitted_serve k t world
      have h₂ := submitted_serveAll ts (k + 1) (worldAfter t world)
      unfold submittedJobs at *
      simp [serveAll, h₁, h₂]

theorem shutdown_run (s : System σ α) (k : Nat) (ws : List (WorkerPc σ α))
    (hq : Quiet s k ws) :
    ∃ s', run s shutdown = some s' ∧ s'.pool.start = true ∧ s'.ctxDone = false ∧
      WaitJobsReturns s' = true ∧ NoAddJobInFlight s' ∧ s'.pool.done = true ∧
      s'.streamEnded = true ∧ s'.panicked = none := by
  obtain ⟨h₁, h₂, h₃, h₄, h₅, h₆, h₇, h₈, h₉, h₁₀, h₁₁, h₁₂, h₁₃, h₁₄⟩ := hq
  unfold inFlightJobs at h₁₀
  simp [shutdown, run, step, Stop, stopStep, consume, Chan.recv, WaitJobsReturns,
    NoAddJobInFlight, inFlightJobs, System.raise, h₁, h₂, h₃, h₄, h₅, h₆, h₇, h₁₀, h₁₁,
    h₁₂, h₁₃, h₁₄, -List.flatMap_eq_nil_iff]

theorem start_run (rt : Runtime) (w c : Int) (p : Pool σ α) (world : σ)
    (hp : NewPool rt w c = Except.ok (some p, none)) :
    ∃ s ws, run (System.init p world) [Action.start] = some s ∧ Quiet s 0 ws ∧
      s.world = world := by
  obtain ⟨hw, _, rfl⟩ := NewPool_some rt w c p hp
  obtain ⟨n, hn⟩ : ∃ n, w.toNat = n + 1 := ⟨w.toNat - 1, by omega⟩
  refine ⟨_, List.replicate n WorkerPc.select, rfl, ?_, ?_⟩
  · simp [Quiet, Start, System.init, inFlightJobs, hn, List.replicate_succ]
  · simp [Start, System.init]

theorem complete_run_exists (rt : Runtime) (w c : Int) (p : Pool σ α) (world : σ)
    (jobs : List (Executor σ α)) (hp : NewPool rt w c = Except.ok (some p, none)) :
    ∃ acts₁ acts₂ s, CompleteRun p world jobs acts₁ acts₂ s := by
  obtain ⟨s₀, ws, h₀, hq₀, hw₀⟩ := start_run rt w c p world hp
  obtain ⟨s₁, h₁, hq₁⟩ := serveAll_run jobs s₀ 0 ws hq₀
  obtain ⟨s₂, h₂, hfin⟩ := shutdown_run s₁ _ ws hq₁
  rw [hw₀] at h₁
  refine ⟨[Action.start] ++ serveAll 0 world jobs, shutdown, s₂, s₁,
    run_append _ _ _ _ _ h₀ h₁, hq₁.2.1, ?_, h₂, rfl, hfin⟩
  have h := submitted_serveAll jobs 0 world
  unfold submittedJobs at *
  simpa [Action.submitted] using h

/-- Claim C2: on a pool built by `NewPool`, every finite list of jobs has a run to completion
(started, not cancelled, all jobs submitted, `WaitJobs` returning, `Stop` completed, the
result stream drained to its close), and at the end of every such run the runs of `Execute`
are the submitted jobs, each once, and the items read from `Result()` are, as a multiset,
exactly one `Result{Value, Error, Executor}` built from what `Execute` returned for each run
of a job that wants a result and nothing for the others; so their number is the number of
submitted jobs that want a result. -/
theorem Result_stream_exact (rt : Runtime) (w c : Int) (p : Pool σ α) (world : σ)
    (jobs : List (Executor σ α)) (hp : NewPool rt w c = Except.ok (some p, none)) :
    (∃ acts₁ acts₂ s, CompleteRun p world jobs acts₁ acts₂ s) ∧
      ∀ acts₁ acts₂ s, CompleteRun p world jobs acts₁ acts₂ s →
        ((executions s).map Prod.fst).Perm jobs ∧
          s.consumed.Perm (((executions s).filter wantsResult).map resultOf) ∧
          s.consumed.length = (jobs.filter (fun t => t.ShouldReturnResult)).length :=
  ⟨complete_run_exists rt w c p world jobs hp,
    fun acts₁ acts₂ s h => complete_run_results rt w c p world jobs acts₁ acts₂ s hp h⟩

/-- Witness of C2: the complete sample run on `NewPool(2, 4)` submits the two jobs of
`TestPoolExecution` and the reader gets their two results. -/
theorem Result_stream_exact_witness :
    (NewPool Runtime.amd64 2 4 : Except Panic (Option (Pool Nat String) × GoError)) =
        Except.ok (some samplePool, none) ∧
      CompleteRun samplePool 0 [successJob, errorJob] submitSchedule stopSchedule
        sampleFinal ∧
      sampleFinal.consumed =
        [{ Value := some "success", Error := none, Executor := successJob },
         { Value := none, Error := some "test error", Executor := errorJob }] ∧
      sampleFinal.consumed.length =
        ([successJob, errorJob].filter (fun t => t.ShouldReturnResult)).length :=
  ⟨rfl, ⟨sampleSubmitted, rfl, rfl, rfl, rfl, rfl, rfl, rfl, rfl, rfl, rfl, rfl, rfl⟩, rfl,
    ((Result_stream_exact Runtime.amd64 2 4 samplePool 0 [successJob, errorJob] rfl).2
      submitSchedule stopSchedule sampleFinal
      ⟨sampleSubmitted, rfl, rfl, rfl, rfl, rfl, rfl, rfl, rfl, rfl, rfl, rfl, rfl⟩).2.2⟩

/-! ## The order of a worker's calls -/

theorem getElem?_mid {β : Type} (k₁ k₂ : List β) (x : β) :
    (k₁ ++ x :: k₂)[k₁.length]? = some x := by
  rw [List.getElem?_append_right (Nat.le_refl _), Nat.sub_self]
  simp

theorem getElem?_mid_ne {β : Type} (k₁ k₂ : List β) (x y : β) (w : Nat)
    (hw : w ≠ k₁.length) : (k₁ ++ x :: k₂)[w]? = (k₁ ++ y :: k₂)[w]? := by
  rcases Nat.lt_or_ge w k₁.length with h | h
  · rw [List.getElem?_append_left h, List.getElem?_append_left h]
  · rw [List.getElem?_append_right h, List.getElem?_append_right h]
    obtain ⟨n, hn⟩ : ∃ n, w - k₁.length = n + 1 := ⟨w - k₁.length - 1, by omega⟩
    rw [hn]
    simp

theorem workerTrace_cons_self (w : Nat) (e : Event σ α) (tr : List (Event σ α))
    (h : e.worker = w) : workerTrace w (e :: tr) = e :: workerTrace w tr := by
  simp [workerTrace, List.filter_cons, h]

theorem workerTrace_cons_other (w : Nat) (e : Event σ α) (tr : List (Event σ α))
    (h : e.worker ≠ w) : workerTrace w (e :: tr) = workerTrace w tr := by
  simp [workerTrace, List.filter_cons, h]

/-- A step of worker `k₁.length` that adds the events `evs` keeps the invariant when it keeps
it for that worker. -/
theorem traceInv_update (s s' : System σ α) (k₁ k₂ : List (WorkerPc σ α))
    (old new : WorkerPc σ α) (evs : List (Event σ α))
    (hw : s.workers = k₁ ++ old :: k₂) (hw' : s'.workers = k₁ ++ new :: k₂)
    (ht : s'.trace = evs ++ s.trace)
    (hev : workerTrace k₁.length evs = evs)
    (hloc : ∀ tr, WellFormed tr ∧ PcLink (some old) tr →
      WellFormed (evs ++ tr) ∧ PcLink (some new) (evs ++ tr))
    (hi : TraceInv s) : TraceInv s' := by
  intro w
  have h := hi w
  rw [hw] at h
  rw [hw', ht]
  have happ : workerTrace w (evs ++ s.trace) = workerTrace w evs ++ workerTrace w s.trace := by
    simp [workerTrace]
  rw [happ]
  by_cases hwk : w = k₁.length
  · subst hwk
    rw [getElem?_mid] at h ⊢
    rw [hev]
    exact hloc _ h
  · rw [getElem?_mid_ne k₁ k₂ new old w hwk]
    have hnil : workerTrace w evs = [] := by
      unfold workerTrace at hev ⊢
      rw [List.filter_eq_nil_iff]
      intro e he
      rw [← hev] at he
      have := (List.mem_filter.mp he).2
      simp only [decide_eq_true_eq] at this ⊢
      omega
    rw [hnil]
    exact h

theorem traceInv_start (s : System σ α) (n : Nat) (hi : TraceInv s) :
    TraceInv { s with
               pool := { s.pool with start := true }
               workers := s.workers ++ List.replicate n WorkerPc.select } := by
  intro w
  have h := hi w
  refine ⟨h.1, ?_⟩
  simp only
  rcases Nat.lt_or_ge w s.workers.length with hlt | hge
  · rw [List.getElem?_append_left hlt]
    exact h.2
  · rw [List.getElem?_eq_none hge] at h
    have hnil : workerTrace w s.trace = [] := h.2
    rw [hnil, List.getElem?_append_right hge]
    cases hr : (List.replicate n (WorkerPc.select : WorkerPc σ α))[w - s.workers.length]? with
    | none => rfl
    | some pc =>
        have hmem := List.getElem?_mem hr
        rw [List.mem_replicate] at hmem
        rw [hmem.2]
        trivial

theorem traceInv_step (s s' : System σ α) (a : Action σ α) (h : Step s a s')
    (hi : TraceInv s) : TraceInv s' := by
  cases h with
  | start => exact traceInv_start s _ hi
  | addHandoff l₁ l₂ k₁ k₂ t ha hw =>
      refine traceInv_update s _ k₁ k₂ _ _ [] hw rfl rfl rfl ?_ hi
      rintro tr ⟨hwf, hl⟩
      exact ⟨hwf, hl⟩
  | workerCtx k₁ k₂ hw =>
      refine traceInv_update s _ k₁ k₂ _ _ [] hw rfl rfl rfl ?_ hi
      rintro tr ⟨hwf, hl⟩
      exact ⟨hwf, hl⟩
  | workerPoolDone k₁ k₂ hw =>
      refine traceInv_update s _ k₁ k₂ _ _ [] hw rfl rfl rfl ?_ hi
      rintro tr ⟨hwf, hl⟩
      exact ⟨hwf, hl⟩
  | workerClosed k₁ k₂ hw =>
      refine traceInv_update s _ k₁ k₂ _ _ [] hw rfl rfl rfl ?_ hi
      rintro tr ⟨hwf, hl⟩
      exact ⟨hwf, hl⟩
  | workerRecv k₁ k₂ t rest hw =>
      refine traceInv_update s _ k₁ k₂ _ _ [] hw rfl rfl rfl ?_ hi
      rintro tr ⟨hwf, hl⟩
      exact ⟨hwf, hl⟩
  | emitSkip k₁ k₂ t value err hw hflag =>
      refine traceInv_update s _ k₁ k₂ _ _ [] hw rfl rfl rfl ?_ hi
      rintro tr ⟨hwf, hl⟩
      refine ⟨hwf, ?_⟩
      rcases tr with _ | ⟨e, rest⟩
      · exact hl
      · cases e <;> simp_all [PcLink]
  | execute k₁ k₂ t hw =>
      refine traceInv_update s _ k₁ k₂ _ _ [Event.executed k₁.length t s.world] hw rfl rfl
        (workerTrace_cons_self _ _ _ rfl) ?_ hi
      rintro tr ⟨hwf, hl⟩
      constructor
      · rcases tr with _ | ⟨e, rest⟩
        · trivial
        · cases e <;> simp_all [PcLink, AtRest, WellFormed, Follows]
      · split
        · next he =>
            refine ⟨rfl, rfl, ?_⟩
            intro hn
            rw [hn] at he
            exact absurd he (by simp)
        · next he =>
            have hn : (t.Execute s.world).1.2 = none := by
              cases hx : (t.Execute s.world).1.2 with
              | none => rfl
              | some e => rw [hx] at he; exact absurd rfl he
            exact ⟨rfl, rfl, hn⟩
  | onError k₁ k₂ t value err hw =>
      refine traceInv_update s _ k₁ k₂ _ _ [Event.onError k₁.length t err] hw rfl rfl
        (workerTrace_cons_self _ _ _ rfl) ?_ hi
      rintro tr ⟨hwf, hl⟩
      rcases tr with _ | ⟨e, rest⟩
      · exact absurd hl (by simp [PcLink])
      · cases e <;> simp_all [PcLink, WellFormed, Follows]
  | emitSend k₁ k₂ t value err hw hflag hopen hroom =>
      refine traceInv_update s _ k₁ k₂ _ _
        [Event.sent k₁.length { Value := value, Error := err, Executor := t }] hw rfl rfl
        (workerTrace_cons_self _ _ _ rfl) ?_ hi
      rintro tr ⟨hwf, hl⟩
      rcases tr with _ | ⟨e, rest⟩
      · exact absurd hl (by simp [PcLink])
      · cases e <;> simp_all [PcLink, WellFormed, Follows, resultOf]
  | emitHandoff k₁ k₂ t value err hw hflag hopen hempty =>
      refine traceInv_update s _ k₁ k₂ _ _
        [Event.sent k₁.length { Value := value, Error := err, Executor := t }] hw rfl rfl
        (workerTrace_cons_self _ _ _ rfl) ?_ hi
      rintro tr ⟨hwf, hl⟩
      rcases tr with _ | ⟨e, rest⟩
      · exact absurd hl (by simp [PcLink])
      · cases e <;> simp_all [PcLink, WellFormed, Follows, resultOf]
  | wgDone k₁ k₂ t hw hpos =>
      refine traceInv_update s _ k₁ k₂ _ _ [Event.wgDone k₁.length t] hw rfl rfl
        (workerTrace_cons_self _ _ _ rfl) ?_ hi
      rintro tr ⟨hwf, hl⟩
      rcases tr with _ | ⟨e, rest⟩
      · exact absurd hl (by simp [PcLink])
      · cases e <;> simp_all [PcLink, WellFormed, Follows, AtRest]
  | _ => exact hi

theorem wellFormed_suffix (newer l : List (Event σ α)) (h : WellFormed (newer ++ l)) :
    WellFormed l := by
  induction newer with
  | nil => exact h
  | cons e rest ih =>
      apply ih
      cases hr : rest ++ l with
      | nil => trivial
      | cons e' tl =>
          rw [List.cons_append, hr] at h
          simp only [WellFormed] at h
          exact h.2

theorem follows_of_wellFormed (newer older : List (Event σ α)) (e₂ e₁ : Event σ α)
    (h : WellFormed (newer ++ e₂ :: e₁ :: older)) : Follows e₂ e₁ := by
  have h' := wellFormed_suffix newer _ h
  simp only [WellFormed] at h'
  exact h'.1

theorem worker_of_mem_workerTrace (k : Nat) (tr : List (Event σ α)) (e : Event σ α)
    (h : e ∈ workerTrace k tr) : e.worker = k := by
  unfold workerTrace at h
  simpa using (List.mem_filter.mp h).2

theorem reachable_traceInv (p : Pool σ α) (world : σ) (s : System σ α)
    (hr : Reachable (System.init p world) s) : TraceInv s := by
  apply reachable_induction TraceInv _ _ _ traceInv_step hr
  intro w
  exact ⟨trivial, rfl⟩

/-- Claim C5: in every reachable state and for every worker `k`, looking at any event `e` of
the worker's trace (`newer` after it, `older` before it): a call of `OnError(err)` comes
right after a run of `Execute` of the same job that returned exactly that error, and the
error is non-nil; after a run of `Execute` that returned a non-nil error the worker's next
event is the call of `OnError` with that error (so it precedes the send of the `Result` and
`jobWg.Done()`), or, if the worker has no later event, the worker stands at that call; after
a run that returned no error the next event is not a call of `OnError`. -/
theorem OnError_iff_Execute_failed (p : Pool σ α) (world : σ) (s : System σ α) (k : Nat)
    (newer older : List (Event σ α)) (e : Event σ α)
    (hr : Reachable (System.init p world) s)
    (hsplit : workerTrace k s.trace = newer ++ e :: older) :
    (∀ t err, e = Event.onError k t err →
      ∃ pre rest, older = Event.executed k t pre :: rest ∧ (t.Execute pre).1.2 = err ∧
        err ≠ none) ∧
    (∀ t pre, e = Event.executed k t pre → (t.Execute pre).1.2 ≠ none →
      (newer = [] ∧
          s.workers[k]? =
            some (WorkerPc.onError t (t.Execute pre).1.1 (t.Execute pre).1.2)) ∨
        ∃ newer', newer = newer' ++ [Event.onError k t (t.Execute pre).1.2]) ∧
    (∀ t pre, e = Event.executed k t pre → (t.Execute pre).1.2 = none →
      ∀ newer' t' err, newer ≠ newer' ++ [Event.onError k t' err]) := by
  obtain ⟨hwf, hl⟩ := reachable_traceInv p world s hr k
  rw [hsplit] at hwf hl
  have hmem : ∀ x ∈ newer ++ e :: older, x.worker = k := by
    intro x hx
    rw [← hsplit] at hx
    exact worker_of_mem_workerTrace k _ x hx
  refine ⟨?_, ?_, ?_⟩
  · rintro t err rfl
    have hsuf := wellFormed_suffix newer _ hwf
    rcases older with _ | ⟨e₁, rest⟩
    · exact absurd hsuf (by simp [WellFormed])
    · have hf : Follows (Event.onError k t err) e₁ :=
        follows_of_wellFormed newer rest _ _ hwf
      have hk : e₁.worker = k := hmem e₁ (by simp)
      cases e₁ with
      | executed j t' pre =>
          simp only [Follows] at hf
          simp only [Event.worker] at hk
          obtain ⟨rfl, rfl, hne⟩ := hf
          subst hk
          exact ⟨pre, rest, rfl, rfl, hne⟩
      | _ => simp [Follows] at hf
  · rintro t pre rfl hne
    rcases List.eq_nil_or_concat' newer with hnil | ⟨newer', e₂, rfl⟩
    · left
      refine ⟨hnil, ?_⟩
      subst hnil
      simp only [List.nil_append] at hl
      cases hpc : s.workers[k]? with
      | none =>
          rw [hpc] at hl
          simp [PcLink] at hl
      | some pc =>
          rw [hpc] at hl
          cases pc with
          | onError t' value err =>
              simp only [PcLink] at hl
              obtain ⟨rfl, hv, _⟩ := hl
              rw [hv]
          | emit t' value err =>
              simp only [PcLink] at hl
              obtain ⟨rfl, hv, he⟩ := hl
              rw [hv] at hne
              exact absurd he hne
          | wgDone t' =>
              simp only [PcLink] at hl
              exact absurd hl.2.1 (hl.1 ▸ hne)
          | _ => simp [PcLink, AtRest] at hl
    · right
      have hf : Follows e₂ (Event.executed k t pre) := by
        apply follows_of_wellFormed newer' older
        simpa using hwf
      have hk : e₂.worker = k := hmem e₂ (by simp)
      cases e₂ with
      | onError j t' err =>
          simp only [Follows] at hf
          simp only [Event.worker] at hk
          obtain ⟨rfl, rfl, _⟩ := hf
          subst hk
          exact ⟨newer', rfl⟩
      | sent j r =>
          simp only [Follows] at hf
          exact absurd hf.1 hne
      | wgDone j t' =>
          simp only [Follows] at hf
          exact absurd hf.2.1 hne
      | executed j t' pre' => simp [Follows] at hf
  · rintro t pre rfl hnone newer' t' err rfl
    have hf : Follows (Event.onError k t' err) (Event.executed k t pre) := by
      apply follows_of_wellFormed newer' older
      simpa using hwf
    simp only [Follows] at hf
    obtain ⟨_, rfl, hne⟩ := hf
    exact hne hnone

/-- Witness of C5: in the complete sample run worker 0 called `OnError` once, right after the
run of `errorJob` that returned `test error` and before the send and `jobWg.Done()`. -/
theorem OnError_iff_Execute_failed_witness :
    Reachable (System.init samplePool 0) sampleFinal ∧
      workerTrace 0 sampleFinal.trace =
        [Event.wgDone 0 errorJob,
         Event.sent 0 { Value := none, Error := some "test error", Executor := errorJob }] ++
          Event.onError 0 errorJob (some "test error") ::
            [Event.executed 0 errorJob 1, Event.wgDone 0 successJob,
             Event.sent 0 { Value := some "success", Error := none, Executor := successJob },
             Event.executed 0 successJob 0] ∧
      ∃ pre rest,
        [Event.executed 0 errorJob 1, Event.wgDone 0 successJob,
          Event.sent 0 { Value := some "success", Error := none, Executor := successJob },
          Event.executed 0 successJob 0] = Event.executed 0 errorJob pre :: rest ∧
        (errorJob.Execute pre).1.2 = some "test error" ∧ some "test error" ≠ none :=
  ⟨⟨sampleSchedule, rfl⟩, rfl,
    (OnError_iff_Execute_failed samplePool 0 sampleFinal 0
      [Event.wgDone 0 errorJob,
       Event.sent 0 { Value := none, Error := some "test error", Executor := errorJob }]
      _ _ ⟨sampleSchedule, rfl⟩ rfl).1 errorJob (some "test error") rfl⟩

end Work
